import Mathlib

/-!
Page iterator of msgraph-sdk-go-core (`page_iterator.go`).

A shallow embedding of `convertToPage`, `NewPageIterator`, `enumerate`,
`getNextPage`, `next` and `Iterate`, and theorems about them.

Modelling conventions.

* Go values that may be `nil` are `Option`s: a `*string`, a `*PageResult`, a
  slice (`none` is the nil slice, `some []` an empty non-nil slice).
* The `Page` interface has two kinds of values: the nil interface and an
  interface value holding a (possibly nil) `*PageResult`.  `next` stores a
  `*PageResult` in `currentPage`, so after the last page `currentPage` holds
  a nil pointer and is not the nil interface.
* A Go function that can panic returns `Go β`: `ret v` or `panic msg`.
  Multiple return values are tuples, `error` is `Option GoError`.
* The callback is a Go closure: a function with its own state `κ`.  The
  request adapter (transport) is a function with its own state `τ`.  Every
  callback invocation and every `SendAsync` call is appended to a trace.
* A response is nil or a pointer to a struct.  Reflection sees whether the
  struct has a field `value` (a slice) and a field `nextLink` (a `*string`);
  `FieldByName` gives the zero `reflect.Value` for a missing field, on which
  `IsNil` panics.
* `pauseIndex` is a `Nat`: the code only assigns 0 and `i + 1` for an index
  `i` of the current page to it.
* `url.Parse` is library code and is a parameter `urlParse`.
* `RequestInformation.AddRequestOptions` is library code; it is embedded as
  `AddRequestOptions`, which stores the options in the request's map by
  option key.
* The `for` loop of `Iterate` has no bound of its own (the transport decides
  how many pages there are), so `Iterate` takes fuel; running out of fuel is
  the outcome `outOfFuel`, with the state reached so far.
-/

namespace Msgraphgocore

/-- A Go `error` value, identified by its message. -/
abbrev GoError := String

/-- Result of a Go function that may panic. -/
inductive Go (β : Type) where
  | ret (v : β)
  | panic (msg : String)
  deriving DecidableEq, Repr

/-- What `reflect.Value.FieldByName` finds in a struct for a field whose type
can be nil (a slice, a pointer): no such field, the field holding nil, or the
field holding a value. -/
inductive Field (β : Type) where
  | absent
  | isNil
  | holds (v : β)
  deriving DecidableEq, Repr

/-- The struct a response points to, seen through reflection: the field
`value` (a slice when present) and the field `nextLink` (a `*string` when
present). -/
structure ResponseObject (α : Type) where
  value : Field (List α)
  nextLink : Field String
  deriving DecidableEq, Repr

/-- A response (`interface{}`): nil, or a pointer to a struct. -/
abbrev Response (α : Type) := Option (ResponseObject α)

/-- The struct `PageResult`. -/
structure PageResult (α : Type) where
  nextLink : Option String
  value : Option (List α)
  deriving DecidableEq, Repr

/-- Method `(*PageResult).getValue`, on a possibly nil receiver. -/
def getValue {α : Type} : Option (PageResult α) → Option (List α)
  | none => none
  | some p => p.value

/-- Method `(*PageResult).getNextLink`, on a possibly nil receiver. -/
def getNextLink {α : Type} : Option (PageResult α) → Option String
  | none => none
  | some p => p.nextLink

/-- A value of the interface type `Page`. -/
inductive Page (α : Type) where
  | nil
  | of (p : Option (PageResult α))
  deriving DecidableEq, Repr

/-- A parsed URL (`net/url.URL`). -/
structure URL where
  raw : String
  deriving DecidableEq, Repr

/-- HTTP methods of the abstractions package. -/
inductive HttpMethod where
  | GET | POST | PATCH | DELETE | OPTIONS | CONNECT | PUT | TRACE | HEAD
  deriving DecidableEq, Repr

/-- A request option (`abstractions.RequestOption`): its key (`GetKey().Key`)
and a tag that tells options with the same key apart. -/
structure RequestOption where
  key : String
  tag : Nat
  deriving DecidableEq, Repr

/-- A `ParsableConstructor`, identified by a tag. -/
structure ParsableConstructor where
  tag : Nat
  deriving DecidableEq, Repr

/-- A response handler, identified by a tag. -/
structure ResponseHandler where
  tag : Nat
  deriving DecidableEq, Repr

/-- The part of `abstractions.RequestInformation` that `getNextPage` sets.
The request keeps its options in a map by option key; `options` lists the
entries of that map, one per key (the order of the list has no meaning for
the request). -/
structure RequestInformation where
  Method : HttpMethod
  uri : URL
  Headers : List (String × String)
  options : List RequestOption
  deriving DecidableEq, Repr

/-- The method `RequestInformation.AddRequestOptions` of the abstractions
library, on the option map of a request: it stores each option under its key,
`request.options[option.GetKey().Key] = option`, in the order given, so an
option replaces an option stored before under the same key. -/
def AddRequestOptions (stored : List RequestOption) :
    List RequestOption → List RequestOption
  | [] => stored
  | option :: options =>
    AddRequestOptions (stored.filter (fun o => o.key ≠ option.key) ++ [option]) options

/-- The method `SendAsync` of a request adapter with state `τ`: the response
or the error, and the adapter's next state. -/
abbrev SendAsync (α τ : Type) :=
  τ → RequestInformation → ParsableConstructor → Option ResponseHandler →
    Except GoError (Response α) × τ

/-- The struct `PageIterator`. -/
structure PageIterator (α τ : Type) where
  currentPage : Page α
  reqAdapter : SendAsync α τ
  pauseIndex : Nat
  constructorFunc : ParsableConstructor
  headers : List (String × String)
  reqOptions : List RequestOption

/-- An observable event of a run. -/
inductive Event (α : Type) where
  | callback (item : α) (result : Bool)
  | send (req : RequestInformation) (ctor : ParsableConstructor)
      (handler : Option ResponseHandler)
  deriving DecidableEq, Repr

/-- The state a method of the iterator runs in: the iterator, the state of
the callback closure, the state of the transport, and the events so far. -/
structure Run (α κ τ : Type) where
  pI : PageIterator α τ
  cbState : κ
  transport : τ
  trace : List (Event α)

/-- How a call of `Iterate` ends. -/
inductive Outcome where
  | returned (err : Option GoError)
  | panicked (msg : String)
  | outOfFuel
  deriving DecidableEq, Repr

/-- The loop of `convertToPage` that copies `value.Index(i)` for
`i = 0 .. value.Len() - 1`; `n` bounds the remaining iterations. -/
def collectLoop {α : Type} (value : List α) : Nat → Nat → List α → List α
  | 0, _, collected => collected
  | n + 1, i, collected =>
    match value.get? i with
    | some x => collectLoop value n (i + 1) (collected ++ [x])
    | none => collected

/-- The function `convertToPage`. -/
def convertToPage {α : Type} :
    Response α → Go (Option (PageResult α) × Option GoError)
  | none => .ret (none, some "response cannot be nil")
  | some ref =>
    match ref.value with
    | .absent => .panic "reflect: call of reflect.Value.IsNil on zero Value"
    | .isNil => .ret (none, some "value property missing in response object")
    | .holds value =>
      match ref.nextLink with
      | .absent => .panic "reflect: call of reflect.Value.IsNil on zero Value"
      | .isNil =>
        .ret (some ⟨none, some (collectLoop value value.length 0 [])⟩, none)
      | .holds link =>
        .ret (some ⟨some link, some (collectLoop value value.length 0 [])⟩, none)

/-- The function `NewPageIterator`. -/
def NewPageIterator {α τ : Type} (res : Response α) (reqAdapter : SendAsync α τ)
    (constructorFunc : ParsableConstructor) :
    Go (Option (PageIterator α τ) × Option GoError) :=
  match convertToPage res with
  | .panic msg => .panic msg
  | .ret (_, some err) => .ret (none, some err)
  | .ret (page, none) =>
    .ret (some ⟨.of page, reqAdapter, 0, constructorFunc, [], []⟩, none)

/-- The method `SetHeaders`. -/
def SetHeaders {α τ : Type} (pI : PageIterator α τ)
    (headers : List (String × String)) : PageIterator α τ :=
  { pI with headers := headers }

/-- The method `SetReqOptions`. -/
def SetReqOptions {α τ : Type} (pI : PageIterator α τ)
    (reqOptions : List RequestOption) : PageIterator α τ :=
  { pI with reqOptions := reqOptions }

/-- The method `hasNext`. -/
def hasNext {α τ : Type} (pI : PageIterator α τ) : Bool :=
  match pI.currentPage with
  | .nil => false
  | .of p => (getNextLink p).isSome

/-- The `for` loop of `enumerate` over the items from index `i` on: the
result is `keepIterating`. -/
def enumerateLoop {α κ τ : Type} (callback : κ → α → Bool × κ) :
    List α → Nat → Run α κ τ → Bool × Run α κ τ
  | [], _, s => (true, s)
  | x :: rest, i, s =>
    let r := callback s.cbState x
    let s1 : Run α κ τ :=
      { s with cbState := r.2, trace := s.trace ++ [Event.callback x r.1] }
    if r.1 then enumerateLoop callback rest (i + 1) s1
    else (false, { s1 with pI := { s1.pI with pauseIndex := i + 1 } })

/-- The method `enumerate`. -/
def enumerate {α κ τ : Type} (callback : κ → α → Bool × κ) (s : Run α κ τ) :
    Bool × Run α κ τ :=
  match s.pI.currentPage with
  | .nil => (false, s)
  | .of p =>
    match getValue p with
    | none => (false, s)
    | some pageItems =>
      if s.pI.pauseIndex ≥ pageItems.length then (false, s)
      else enumerateLoop callback (pageItems.drop s.pI.pauseIndex) s.pI.pauseIndex s

/-- The method `getNextPage`. -/
def getNextPage {α κ τ : Type} (urlParse : String → Option URL) (s : Run α κ τ) :
    Go (Option (PageResult α) × Option GoError) × Run α κ τ :=
  match s.pI.currentPage with
  | .nil =>
    (.panic "runtime error: invalid memory address or nil pointer dereference", s)
  | .of p =>
    match getNextLink p with
    | none => (.ret (none, none), s)
    | some link =>
      match urlParse link with
      | none => (.ret (none, some "Parsing nextLink url failed"), s)
      | some nextLink =>
        let requestInfo : RequestInformation :=
          ⟨.GET, nextLink, s.pI.headers, AddRequestOptions [] s.pI.reqOptions⟩
        let r := s.pI.reqAdapter s.transport requestInfo s.pI.constructorFunc none
        let s1 : Run α κ τ :=
          { s with
            transport := r.2
            trace := s.trace ++ [Event.send requestInfo s.pI.constructorFunc none] }
        match r.1 with
        | .error _ => (.ret (none, some "Fetching next page failed"), s1)
        | .ok res => (convertToPage res, s1)

/-- The method `next`. -/
def next {α κ τ : Type} (urlParse : String → Option URL) (s : Run α κ τ) :
    Go (Option GoError) × Run α κ τ :=
  match getNextPage urlParse s with
  | (.panic msg, s1) => (.panic msg, s1)
  | (.ret (_, some err), s1) => (.ret (some err), s1)
  | (.ret (nextPage, none), s1) =>
    (.ret none, { s1 with pI := { s1.pI with currentPage := .of nextPage } })

/-- The method `Iterate`, with fuel for its `for` loop. -/
def Iterate {α κ τ : Type} (urlParse : String → Option URL)
    (callback : κ → α → Bool × κ) : Nat → Run α κ τ → Outcome × Run α κ τ
  | 0, s => (.outOfFuel, s)
  | fuel + 1, s =>
    match s.pI.currentPage with
    | .nil => (.returned none, s)
    | .of _ =>
      match enumerate callback s with
      | (false, s1) => (.returned none, s1)
      | (true, s1) =>
        match next urlParse s1 with
        | (.panic msg, s2) => (.panicked msg, s2)
        | (.ret (some err), s2) => (.returned (some err), s2)
        | (.ret none, s2) =>
          Iterate urlParse callback fuel { s2 with pI := { s2.pI with pauseIndex := 0 } }

/-! ## Observations on traces and pages -/

/-- The items passed to the callback, in order. -/
def deliveredItems {α : Type} : List (Event α) → List α
  | [] => []
  | .callback x _ :: es => x :: deliveredItems es
  | .send _ _ _ :: es => deliveredItems es

/-- The values the callback returned, in order. -/
def callbackResults {α : Type} : List (Event α) → List Bool
  | [] => []
  | .callback _ b :: es => b :: callbackResults es
  | .send _ _ _ :: es => callbackResults es

/-- The requests given to the transport, in order. -/
def sentRequests {α : Type} : List (Event α) → List RequestInformation
  | [] => []
  | .callback _ _ :: es => sentRequests es
  | .send req _ _ :: es => req :: sentRequests es

/-- The items of a page (none for a nil item slice). -/
def pageItems {α : Type} (p : PageResult α) : List α :=
  match p.value with
  | none => []
  | some xs => xs

/-- The items of a list of pages, page after page. -/
def chainItems {α : Type} : List (PageResult α) → List α
  | [] => []
  | p :: ps => pageItems p ++ chainItems ps

/-- The state in which a call with callback state `c` starts on iterator
`pI`, with transport state `t` and no event so far. -/
def start {α κ τ : Type} (pI : PageIterator α τ) (c : κ) (t : τ) : Run α κ τ :=
  ⟨pI, c, t, []⟩

/-- The state in which a later call, with another callback whose state is
`c`, starts after a run has ended in `s`. -/
def resume {α κ κ2 τ : Type} (s : Run α κ τ) (c : κ2) : Run α κ2 τ :=
  ⟨s.pI, c, s.transport, s.trace⟩

/-- A chain of pages: `Chain urlParse adapter hdrs opts ctor p rest` says that
the pages after `p` are `rest`: each page but the last has a next link that
parses, the transport answers the request for it, in every transport state,
with a response that converts to the following page, and the last page has
no next link. -/
def Chain {α τ : Type} (urlParse : String → Option URL) (adapter : SendAsync α τ)
    (hdrs : List (String × String)) (opts : List RequestOption)
    (ctor : ParsableConstructor) : PageResult α → List (PageResult α) → Prop
  | p, [] => p.nextLink = none
  | p, q :: rest =>
    (∃ link u res, p.nextLink = some link ∧ urlParse link = some u ∧
      (∀ t, (adapter t ⟨.GET, u, hdrs, AddRequestOptions [] opts⟩ ctor none).1 = .ok res) ∧
      convertToPage res = .ret (some q, none)) ∧
    Chain urlParse adapter hdrs opts ctor q rest

/-- A chain can be walked from index `i0` of its first page when every page
but the last has an item at the index it is entered at (`i0` for the first
page, 0 for the pages fetched later). -/
def Passable {α : Type} : Nat → PageResult α → List (PageResult α) → Prop
  | _, _, [] => True
  | i0, p, q :: rest => i0 < (pageItems p).length ∧ Passable 0 q rest

/-- A struct field of pointer type that is present: nil for `none`. -/
def ptrField {β : Type} : Option β → Field β
  | none => .isNil
  | some v => .holds v

/-- The length of `currentPage.getValue()`, 0 for a nil page. -/
def currentLength {α τ : Type} (pI : PageIterator α τ) : Nat :=
  match pI.currentPage with
  | .nil => 0
  | .of p =>
    match getValue p with
    | none => 0
    | some xs => xs.length

/-- The cursor invariant: `pauseIndex` is between 0 and the length of the
current page. -/
def cursorOk {α τ : Type} (pI : PageIterator α τ) : Prop :=
  0 ≤ pI.pauseIndex ∧ pI.pauseIndex ≤ currentLength pI

/-- What a transport call of an iterator with headers `hdrs`, options `opts`
and constructor `ctor` must look like: a GET request for a URL that
`urlParse` gives for some link, with these headers and options, sent with
this constructor and no response handler.  Callback events are not
constrained. -/
def requestOk {α : Type} (urlParse : String → Option URL)
    (hdrs : List (String × String)) (opts : List RequestOption)
    (ctor : ParsableConstructor) : Event α → Prop
  | .callback _ _ => True
  | .send req c handler =>
    req.Method = .GET ∧ (∃ link, urlParse link = some req.uri) ∧
      req.Headers = hdrs ∧ req.options = AddRequestOptions [] opts ∧ c = ctor ∧
      handler = none

/-- The order of deliveries and fetches along a chain entered at index `i0`
of its first page `p`: either there is no transport call at all, or the
events start with a delivery, with result true, of every item of `p` from
`i0` on, then comes the one request for the next link of `p`, and the events
after it have this shape for the following page entered at index 0.  There
is no transport call on the last page. -/
def FetchOrder {α : Type} (urlParse : String → Option URL)
    (hdrs : List (String × String)) (opts : List RequestOption)
    (ctor : ParsableConstructor) :
    Nat → PageResult α → List (PageResult α) → List (Event α) → Prop
  | _, _, [], evs => sentRequests evs = []
  | i0, p, q :: rest, evs =>
    sentRequests evs = [] ∨
    ∃ link u evs2, p.nextLink = some link ∧ urlParse link = some u ∧
      evs = ((pageItems p).drop i0).map (fun x => Event.callback x true) ++
        Event.send ⟨.GET, u, hdrs, AddRequestOptions [] opts⟩ ctor none :: evs2 ∧
      FetchOrder urlParse hdrs opts ctor 0 q rest evs2

/-- Two iterators with the same transport, constructor, headers and request
options. -/
def SameConfig {α τ : Type} (pI pI2 : PageIterator α τ) : Prop :=
  pI2.reqAdapter = pI.reqAdapter ∧ pI2.constructorFunc = pI.constructorFunc ∧
    pI2.headers = pI.headers ∧ pI2.reqOptions = pI.reqOptions

/-- The requests a call of `Iterate` with the given fuel gives the transport
when it starts in `s`: the requests among the events the call appends. -/
def requestsOf {α κ τ : Type} (urlParse : String → Option URL)
    (callback : κ → α → Bool × κ) (fuel : Nat) (s : Run α κ τ) :
    List RequestInformation :=
  sentRequests ((Iterate urlParse callback fuel s).2.trace.drop s.trace.length)

/-- Every request of a call of `Iterate` is for the next link of the page that
is current when it is sent.  Either the call sends nothing, or the current
page has a next link that parses to `u` and the first request is the GET
request for `u` with the iterator's headers, stored options; then either
that is the only request, or the transport answered it with a response that
converts to a page `q`, and the remaining requests are those of `Iterate`
continuing in a state `s2` with the same configuration, `q` as current page
and `pauseIndex` 0, for which the same holds. -/
def RequestsFollowLinks {α κ τ : Type} (urlParse : String → Option URL)
    (callback : κ → α → Bool × κ) : Nat → Run α κ τ → Prop
  | 0, _ => True
  | fuel + 1, s =>
    requestsOf urlParse callback (fuel + 1) s = [] ∨
    ∃ p link u, s.pI.currentPage = .of p ∧ getNextLink p = some link ∧
      urlParse link = some u ∧
      (requestsOf urlParse callback (fuel + 1) s =
          [⟨.GET, u, s.pI.headers, AddRequestOptions [] s.pI.reqOptions⟩] ∨
        ∃ (s2 : Run α κ τ) (res : Response α) (q : PageResult α),
          (s.pI.reqAdapter s.transport
            ⟨.GET, u, s.pI.headers, AddRequestOptions [] s.pI.reqOptions⟩
            s.pI.constructorFunc none).1 = .ok res ∧
          convertToPage res = .ret (some q, none) ∧
          s2.pI.currentPage = .of (some q) ∧ s2.pI.pauseIndex = 0 ∧
          SameConfig s.pI s2.pI ∧
          requestsOf urlParse callback (fuel + 1) s =
            ⟨.GET, u, s.pI.headers, AddRequestOptions [] s.pI.reqOptions⟩ ::
              requestsOf urlParse callback fuel s2 ∧
          RequestsFollowLinks urlParse callback fuel s2)

/-! ## Example data -/

/-- A URL parser that accepts every string.  On the links of the examples it
agrees with `url.Parse`, which accepts them (the empty string included: it
parses to the empty URL). -/
def parseAny : String → Option URL := fun s => some ⟨s⟩

/-- A URL parser that rejects the string `bad` and accepts the others. -/
def parseExcept (bad : String) : String → Option URL :=
  fun s => if s = bad then none else some ⟨s⟩

/-- A transport that serves the responses of a table by URL and fails on
other URLs; its state counts the calls. -/
def tableAdapter {α : Type} (table : List (String × Response α)) : SendAsync α Nat :=
  fun t req _ _ =>
    match table.lookup req.uri.raw with
    | some res => (.ok res, t + 1)
    | none => (.error "no such page", t + 1)

/-- A callback that always returns true. -/
def alwaysTrue {α : Type} : Unit → α → Bool × Unit := fun _ _ => (true, ())

/-- A callback that counts its calls and returns false on the `k`-th. -/
def falseOnCall {α : Type} (k : Nat) : Nat → α → Bool × Nat :=
  fun n _ => (decide (n + 1 ≠ k), n + 1)

/-- A first response with no items and a link to a second page. -/
def emptyFirst : Response Nat := some ⟨.holds [], .holds "page2"⟩

/-- A first response with two items and a link to a second page. -/
def twoFirst : Response Nat := some ⟨.holds [1, 2], .holds "page2"⟩

/-- A last response with one item. -/
def oneLast : Response Nat := some ⟨.holds [7], .isNil⟩

/-- The transport of the examples: it serves `oneLast` for `page2`. -/
def demoAdapter : SendAsync Nat Nat := tableAdapter [("page2", oneLast)]

/-- The iterator `NewPageIterator` builds from `emptyFirst`. -/
def emptyFirstIterator : PageIterator Nat Nat :=
  ⟨.of (some ⟨some "page2", some []⟩), demoAdapter, 0, ⟨0⟩, [], []⟩

/-- The iterator `NewPageIterator` builds from `twoFirst`. -/
def twoFirstIterator : PageIterator Nat Nat :=
  ⟨.of (some ⟨some "page2", some [1, 2]⟩), demoAdapter, 0, ⟨0⟩, [], []⟩

/-- The iterator of `twoFirst` with a transport that fails on every request. -/
def twoFirstFailing : PageIterator Nat Nat :=
  ⟨.of (some ⟨some "page2", some [1, 2]⟩), tableAdapter [], 0, ⟨0⟩, [], []⟩

/-- A first response with one item whose next link is the empty string. -/
def emptyLink : Response Nat := some ⟨.holds [1], .holds ""⟩

/-- The iterator `NewPageIterator` builds from `emptyLink`. -/
def emptyLinkIterator : PageIterator Nat Nat :=
  ⟨.of (some ⟨some "", some [1]⟩), demoAdapter, 0, ⟨0⟩, [], []⟩

/-- A response whose struct has no field named `value`. -/
def noValueField : Response Nat := some ⟨.absent, .isNil⟩

/-- A response with an item whose struct has no field named `nextLink`. -/
def noNextLinkField : Response Nat := some ⟨.holds [1], .absent⟩

/-- An iterator paused inside its page: items 1, 2, 3, `pauseIndex` 1, and a
link to a second page. -/
def pausedIterator : PageIterator Nat Nat :=
  ⟨.of (some ⟨some "page2", some [1, 2, 3]⟩), demoAdapter, 1, ⟨0⟩, [], []⟩

/-- The iterator of `twoFirst` with a transport that answers with a nil
response. -/
def twoFirstNilResponse : PageIterator Nat Nat :=
  ⟨.of (some ⟨some "page2", some [1, 2]⟩), tableAdapter [("page2", none)], 0, ⟨0⟩, [], []⟩

/-- The iterator of `twoFirst` with a transport that answers with a response
whose field `value` is nil. -/
def twoFirstNilValue : PageIterator Nat Nat :=
  ⟨.of (some ⟨some "page2", some [1, 2]⟩),
    tableAdapter [("page2", some ⟨.isNil, .isNil⟩)], 0, ⟨0⟩, [], []⟩

/-- The iterator `NewPageIterator` builds from `oneLast`. -/
def oneLastIterator : PageIterator Nat Nat :=
  ⟨.of (some ⟨none, some [7]⟩), demoAdapter, 0, ⟨0⟩, [], []⟩

/-- Two request options with the same key. -/
def sameKeyOptions : List RequestOption := [⟨"retry", 1⟩, ⟨"retry", 2⟩]

/-- A first response with no items whose next link is not a URL. -/
def emptyBadLink : Response Nat := some ⟨.holds [], .holds "://bad"⟩

/-- The iterator `NewPageIterator` builds from `emptyBadLink`. -/
def emptyBadLinkIterator : PageIterator Nat Nat :=
  ⟨.of (some ⟨some "://bad", some []⟩), demoAdapter, 0, ⟨0⟩, [], []⟩

/-- The iterator of a page with the items 1, 2 whose next link is not a
URL. -/
def twoBadLinkIterator : PageIterator Nat Nat :=
  ⟨.of (some ⟨some "://bad", some [1, 2]⟩), demoAdapter, 0, ⟨0⟩, [], []⟩

/-! ## Basic facts -/

theorem collectLoop_eq {α : Type} (value : List α) :
    ∀ (n i : Nat) (collected : List α),
      collectLoop value n i collected = collected ++ (value.drop i).take n := by
  intro n
  induction n with
  | zero => intro i collected; simp [collectLoop]
  | succ n ih =>
    intro i collected
    simp only [collectLoop]
    cases h : value.get? i with
    | none =>
      have hlen : value.length ≤ i := by
        simpa [List.get?_eq_none] using h
      simp [List.drop_eq_nil_of_le hlen]
    | some x =>
      rw [List.get?_eq_getElem?] at h
      obtain ⟨hi, hx⟩ := List.getElem?_eq_some.1 h
      have hdrop : value.drop i = x :: value.drop (i + 1) := by
        rw [List.drop_eq_getElem_cons hi, hx]
      simp [ih, hdrop]

theorem collectLoop_all {α : Type} (value : List α) :
    collectLoop value value.length 0 [] = value := by
  simp [collectLoop_eq]

theorem convertToPage_holds {α : Type} (xs : List α) (nl : Field String)
    (h : nl ≠ .absent) :
    convertToPage (some ⟨.holds xs, nl⟩) =
      .ret (some ⟨(match nl with | .holds l => some l | _ => none), some xs⟩, none) := by
  cases nl with
  | absent => exact absurd rfl h
  | isNil => simp [convertToPage, collectLoop_all]
  | holds l => simp [convertToPage, collectLoop_all]

/-- A page that `convertToPage` returns has a non-nil item slice. -/
theorem convertToPage_value {α : Type} (res : Response α) (q : PageResult α)
    (e : Option GoError) (h : convertToPage res = .ret (some q, e)) :
    ∃ xs, q.value = some xs := by
  cases res with
  | none => simp [convertToPage] at h
  | some ref =>
    obtain ⟨v, nl⟩ := ref
    cases v with
    | absent => simp [convertToPage] at h
    | isNil => simp [convertToPage] at h
    | holds xs =>
      cases nl with
      | absent => simp [convertToPage] at h
      | isNil =>
        simp only [convertToPage, Go.ret.injEq, Prod.mk.injEq, Option.some.injEq] at h
        exact ⟨_, by rw [← h.1]⟩
      | holds l =>
        simp only [convertToPage, Go.ret.injEq, Prod.mk.injEq, Option.some.injEq] at h
        exact ⟨_, by rw [← h.1]⟩

/-! ## The loop of `enumerate` -/

theorem enumerateLoop_true {α κ τ : Type} (callback : κ → α → Bool × κ) :
    ∀ (xs : List α) (i : Nat) (s : Run α κ τ),
      (enumerateLoop callback xs i s).1 = true →
      (enumerateLoop callback xs i s).2.pI = s.pI ∧
      (enumerateLoop callback xs i s).2.transport = s.transport ∧
      (enumerateLoop callback xs i s).2.trace =
        s.trace ++ xs.map (fun x => Event.callback x true) := by
  intro xs
  induction xs with
  | nil => intro i s _; simp [enumerateLoop]
  | cons x rest ih =>
    intro i s h
    simp only [enumerateLoop] at h ⊢
    cases hr : (callback s.cbState x).1 with
    | false => simp [hr] at h
    | true =>
      simp only [hr, if_true] at h ⊢
      obtain ⟨h1, h2, h3⟩ := ih _ _ h
      refine ⟨h1, h2, ?_⟩
      rw [h3]
      simp

theorem enumerateLoop_false {α κ τ : Type} (callback : κ → α → Bool × κ) :
    ∀ (xs : List α) (i : Nat) (s : Run α κ τ),
      (enumerateLoop callback xs i s).1 = false →
      ∃ j x, xs[j]? = some x ∧
        (enumerateLoop callback xs i s).2.pI = { s.pI with pauseIndex := i + j + 1 } ∧
        (enumerateLoop callback xs i s).2.transport = s.transport ∧
        (enumerateLoop callback xs i s).2.trace =
          s.trace ++ (xs.take j).map (fun x => Event.callback x true) ++
            [Event.callback x false] := by
  intro xs
  induction xs with
  | nil => intro i s h; simp [enumerateLoop] at h
  | cons x rest ih =>
    intro i s h
    simp only [enumerateLoop] at h ⊢
    cases hr : (callback s.cbState x).1 with
    | false =>
      refine ⟨0, x, by simp, ?_⟩
      simp [hr]
    | true =>
      simp only [hr, if_true] at h ⊢
      obtain ⟨j, y, hy, h1, h2, h3⟩ := ih _ _ h
      refine ⟨j + 1, y, by simpa using hy, ?_, h2, ?_⟩
      · rw [h1]; simp; omega
      · rw [h3]; simp

theorem enumerateLoop_alwaysTrue {α κ τ : Type} (callback : κ → α → Bool × κ)
    (hcb : ∀ c x, (callback c x).1 = true) :
    ∀ (xs : List α) (i : Nat) (s : Run α κ τ),
      (enumerateLoop callback xs i s).1 = true := by
  intro xs
  induction xs with
  | nil => intro i s; simp [enumerateLoop]
  | cons x rest ih =>
    intro i s
    simp only [enumerateLoop, hcb, if_true]
    exact ih _ _

/-! ## `enumerate` -/

/-- When `enumerate` returns true the current page has a non-nil item slice
with an item at `pauseIndex`, every item from there on was delivered with the
callback returning true, and the iterator is unchanged. -/
theorem enumerate_true {α κ τ : Type} (callback : κ → α → Bool × κ) (s : Run α κ τ)
    (h : (enumerate callback s).1 = true) :
    ∃ p xs, s.pI.currentPage = .of (some p) ∧ p.value = some xs ∧
      s.pI.pauseIndex < xs.length ∧
      (enumerate callback s).2.pI = s.pI ∧
      (enumerate callback s).2.transport = s.transport ∧
      (enumerate callback s).2.trace =
        s.trace ++ (xs.drop s.pI.pauseIndex).map (fun x => Event.callback x true) := by
  unfold enumerate at h ⊢
  cases hcp : s.pI.currentPage with
  | nil => simp [hcp] at h
  | of p =>
    cases p with
    | none => simp [hcp, getValue] at h
    | some p =>
      cases hv : p.value with
      | none => simp [hcp, getValue, hv] at h
      | some xs =>
        simp only [hcp, getValue, hv] at h ⊢
        by_cases hlt : s.pI.pauseIndex ≥ xs.length
        · simp [hlt] at h
        · simp only [hlt, if_false] at h ⊢
          obtain ⟨h1, h2, h3⟩ := enumerateLoop_true callback _ _ s h
          exact ⟨p, xs, rfl, hv, by omega, h1, h2, h3⟩

/-- With a callback that always returns true, `enumerate` on a page that has
an item at `pauseIndex` returns true. -/
theorem enumerate_alwaysTrue {α κ τ : Type} (callback : κ → α → Bool × κ)
    (hcb : ∀ c x, (callback c x).1 = true) (s : Run α κ τ) (p : PageResult α)
    (xs : List α) (hp : s.pI.currentPage = .of (some p)) (hv : p.value = some xs)
    (hlt : s.pI.pauseIndex < xs.length) :
    (enumerate callback s).1 = true := by
  unfold enumerate
  have hn : ¬ s.pI.pauseIndex ≥ xs.length := by omega
  simp only [hp, getValue, hv, hn, if_false]
  exact enumerateLoop_alwaysTrue callback hcb _ _ _

/-- On a page with no item at `pauseIndex`, `enumerate` returns false and
changes nothing. -/
theorem enumerate_exhausted {α κ τ : Type} (callback : κ → α → Bool × κ)
    (s : Run α κ τ) (p : PageResult α) (xs : List α)
    (hp : s.pI.currentPage = .of (some p)) (hv : p.value = some xs)
    (hge : xs.length ≤ s.pI.pauseIndex) :
    enumerate callback s = (false, s) := by
  unfold enumerate
  simp [hp, getValue, hv, hge]

/-- On the nil page pointer that `next` stores after the last page,
`enumerate` returns false and changes nothing. -/
theorem enumerate_nilPtr {α κ τ : Type} (callback : κ → α → Bool × κ)
    (s : Run α κ τ) (hp : s.pI.currentPage = .of none) :
    enumerate callback s = (false, s) := by
  unfold enumerate
  simp [hp, getValue]

/-! ## `next` -/

/-- After the last page: `getNextPage` returns a nil page pointer and no
error, and `next` stores that pointer in `currentPage`. -/
theorem next_noLink {α κ τ : Type} (urlParse : String → Option URL) (s : Run α κ τ)
    (p : Option (PageResult α)) (hp : s.pI.currentPage = .of p)
    (hl : getNextLink p = none) :
    next urlParse s =
      (.ret none, { s with pI := { s.pI with currentPage := .of none } }) := by
  simp [next, getNextPage, hp, hl]

theorem next_badLink {α κ τ : Type} (urlParse : String → Option URL) (s : Run α κ τ)
    (p : Option (PageResult α)) (link : String) (hp : s.pI.currentPage = .of p)
    (hl : getNextLink p = some link) (hparse : urlParse link = none) :
    next urlParse s = (.ret (some "Parsing nextLink url failed"), s) := by
  simp [next, getNextPage, hp, hl, hparse]

theorem next_sendError {α κ τ : Type} (urlParse : String → Option URL) (s : Run α κ τ)
    (p : Option (PageResult α)) (link : String) (u : URL) (e : GoError)
    (hp : s.pI.currentPage = .of p) (hl : getNextLink p = some link)
    (hparse : urlParse link = some u)
    (hfail : (s.pI.reqAdapter s.transport ⟨.GET, u, s.pI.headers,
        AddRequestOptions [] s.pI.reqOptions⟩
      s.pI.constructorFunc none).1 = .error e) :
    next urlParse s =
      (.ret (some "Fetching next page failed"),
        { s with
          transport := (s.pI.reqAdapter s.transport
            ⟨.GET, u, s.pI.headers,
                AddRequestOptions [] s.pI.reqOptions⟩ s.pI.constructorFunc none).2
          trace := s.trace ++
            [Event.send ⟨.GET, u, s.pI.headers,
                AddRequestOptions [] s.pI.reqOptions⟩ s.pI.constructorFunc none] }) := by
  simp [next, getNextPage, hp, hl, hparse, hfail]

theorem next_sendOk {α κ τ : Type} (urlParse : String → Option URL) (s : Run α κ τ)
    (p : Option (PageResult α)) (link : String) (u : URL) (res : Response α)
    (q : PageResult α)
    (hp : s.pI.currentPage = .of p) (hl : getNextLink p = some link)
    (hparse : urlParse link = some u)
    (hok : (s.pI.reqAdapter s.transport ⟨.GET, u, s.pI.headers,
        AddRequestOptions [] s.pI.reqOptions⟩
      s.pI.constructorFunc none).1 = .ok res)
    (hconv : convertToPage res = .ret (some q, none)) :
    next urlParse s =
      (.ret none,
        { s with
          pI := { s.pI with currentPage := .of (some q) }
          transport := (s.pI.reqAdapter s.transport
            ⟨.GET, u, s.pI.headers,
                AddRequestOptions [] s.pI.reqOptions⟩ s.pI.constructorFunc none).2
          trace := s.trace ++
            [Event.send ⟨.GET, u, s.pI.headers,
                AddRequestOptions [] s.pI.reqOptions⟩ s.pI.constructorFunc none] }) := by
  simp [next, getNextPage, hp, hl, hparse, hok, hconv]

/-- The events of `next` are appended to the trace. -/
theorem next_trace {α κ τ : Type} (urlParse : String → Option URL) (s : Run α κ τ) :
    ∃ evs, (next urlParse s).2.trace = s.trace ++ evs := by
  cases hcp : s.pI.currentPage with
  | nil => exact ⟨[], by simp [next, getNextPage, hcp]⟩
  | of p =>
    cases hl : getNextLink p with
    | none => exact ⟨[], by simp [next, getNextPage, hcp, hl]⟩
    | some link =>
      cases hparse : urlParse link with
      | none => exact ⟨[], by simp [next, getNextPage, hcp, hl, hparse]⟩
      | some u =>
        refine ⟨[Event.send ⟨.GET, u, s.pI.headers, AddRequestOptions [] s.pI.reqOptions⟩
          s.pI.constructorFunc none], ?_⟩
        cases hr : (s.pI.reqAdapter s.transport ⟨.GET, u, s.pI.headers,
            AddRequestOptions [] s.pI.reqOptions⟩
          s.pI.constructorFunc none).1 with
        | error e => simp [next, getNextPage, hcp, hl, hparse, hr]
        | ok res =>
          cases hconv : convertToPage res with
          | panic m => simp [next, getNextPage, hcp, hl, hparse, hr, hconv]
          | ret v =>
            obtain ⟨pg, e⟩ := v
            cases e <;> simp [next, getNextPage, hcp, hl, hparse, hr, hconv]

/-- The events of `enumerateLoop` are appended to the trace. -/
theorem enumerateLoop_trace {α κ τ : Type} (callback : κ → α → Bool × κ) :
    ∀ (xs : List α) (i : Nat) (s : Run α κ τ),
      ∃ evs, (enumerateLoop callback xs i s).2.trace = s.trace ++ evs := by
  intro xs i s
  cases h : (enumerateLoop callback xs i s).1 with
  | true => exact ⟨_, (enumerateLoop_true callback xs i s h).2.2⟩
  | false =>
    obtain ⟨j, x, _, _, _, h3⟩ := enumerateLoop_false callback xs i s h
    exact ⟨_, by rw [h3, List.append_assoc]⟩

/-- The events of `enumerate` are appended to the trace. -/
theorem enumerate_trace {α κ τ : Type} (callback : κ → α → Bool × κ) (s : Run α κ τ) :
    ∃ evs, (enumerate callback s).2.trace = s.trace ++ evs := by
  cases hcp : s.pI.currentPage with
  | nil => exact ⟨[], by simp [enumerate, hcp]⟩
  | of p =>
    cases hv : getValue p with
    | none => exact ⟨[], by simp [enumerate, hcp, hv]⟩
    | some xs =>
      by_cases hge : s.pI.pauseIndex ≥ xs.length
      · exact ⟨[], by simp [enumerate, hcp, hv, hge]⟩
      · obtain ⟨evs, h⟩ := enumerateLoop_trace callback (xs.drop s.pI.pauseIndex)
          s.pI.pauseIndex s
        refine ⟨evs, ?_⟩
        simp only [enumerate, hcp, hv, hge, if_false]
        exact h

/-! ## `Iterate` -/

/-- The events of `Iterate` are appended to the trace. -/
theorem Iterate_trace {α κ τ : Type} (urlParse : String → Option URL)
    (callback : κ → α → Bool × κ) :
    ∀ (fuel : Nat) (s : Run α κ τ),
      ∃ evs, (Iterate urlParse callback fuel s).2.trace = s.trace ++ evs := by
  intro fuel
  induction fuel with
  | zero => intro s; exact ⟨[], by simp [Iterate]⟩
  | succ fuel ih =>
    intro s
    unfold Iterate
    cases hcp : s.pI.currentPage with
    | nil => exact ⟨[], by simp⟩
    | of p =>
      simp only
      obtain ⟨e1, he1⟩ := enumerate_trace callback s
      cases hE : enumerate callback s with
      | mk b s1 =>
        rw [hE] at he1
        cases b with
        | false => exact ⟨e1, he1⟩
        | true =>
          simp only
          obtain ⟨e2, he2⟩ := next_trace urlParse s1
          cases hN : next urlParse s1 with
          | mk o s2 =>
            rw [hN] at he2
            simp only at he1 he2
            cases o with
            | panic m => exact ⟨e1 ++ e2, by simp [he2, he1]⟩
            | ret v =>
              cases v with
              | some err => exact ⟨e1 ++ e2, by simp [he2, he1]⟩
              | none =>
                simp only
                obtain ⟨e3, he3⟩ := ih { s2 with pI := { s2.pI with pauseIndex := 0 } }
                exact ⟨e1 ++ e2 ++ e3, by rw [he3]; simp [he2, he1]⟩

/-- One round of `Iterate` whose `next` fails: the error is returned. -/
theorem Iterate_next_error {α κ τ : Type} (urlParse : String → Option URL)
    (callback : κ → α → Bool × κ) (fuel : Nat) (s s2 : Run α κ τ)
    (p : Option (PageResult α)) (err : GoError)
    (hp : s.pI.currentPage = .of p)
    (henum : (enumerate callback s).1 = true)
    (hnext : next urlParse (enumerate callback s).2 = (.ret (some err), s2)) :
    Iterate urlParse callback (fuel + 1) s = (.returned (some err), s2) := by
  have hE : enumerate callback s = (true, (enumerate callback s).2) :=
    Prod.ext henum rfl
  rw [Iterate]
  simp only [hp]
  rw [hE]
  simp only [hnext]

/-- One round of `Iterate` whose `next` succeeds: the loop goes on with the
new page and `pauseIndex` 0. -/
theorem Iterate_next_ok {α κ τ : Type} (urlParse : String → Option URL)
    (callback : κ → α → Bool × κ) (fuel : Nat) (s s2 : Run α κ τ)
    (p : Option (PageResult α))
    (hp : s.pI.currentPage = .of p)
    (henum : (enumerate callback s).1 = true)
    (hnext : next urlParse (enumerate callback s).2 = (.ret none, s2)) :
    Iterate urlParse callback (fuel + 1) s =
      Iterate urlParse callback fuel { s2 with pI := { s2.pI with pauseIndex := 0 } } := by
  have hE : enumerate callback s = (true, (enumerate callback s).2) :=
    Prod.ext henum rfl
  rw [Iterate]
  simp only [hp]
  rw [hE]
  simp only [hnext]

/-- One round of `Iterate` in which `enumerate` returns false: `Iterate`
returns nil at once. -/
theorem Iterate_enumerate_false {α κ τ : Type} (urlParse : String → Option URL)
    (callback : κ → α → Bool × κ) (fuel : Nat) (s : Run α κ τ)
    (p : Option (PageResult α))
    (hp : s.pI.currentPage = .of p)
    (henum : (enumerate callback s).1 = false) :
    Iterate urlParse callback (fuel + 1) s = (.returned none, (enumerate callback s).2) := by
  have hE : enumerate callback s = (false, (enumerate callback s).2) :=
    Prod.ext henum rfl
  rw [Iterate]
  simp only [hp]
  rw [hE]

/-- When the next link parses, `next` gives exactly one request to the
transport, whatever comes back. -/
theorem next_trace_send {α κ τ : Type} (urlParse : String → Option URL) (s : Run α κ τ)
    (p : Option (PageResult α)) (link : String) (u : URL)
    (hcp : s.pI.currentPage = .of p) (hl : getNextLink p = some link)
    (hparse : urlParse link = some u) :
    (next urlParse s).2.trace = s.trace ++
      [Event.send ⟨.GET, u, s.pI.headers,
          AddRequestOptions [] s.pI.reqOptions⟩ s.pI.constructorFunc none] := by
  cases hr : (s.pI.reqAdapter s.transport ⟨.GET, u, s.pI.headers,
      AddRequestOptions [] s.pI.reqOptions⟩
    s.pI.constructorFunc none).1 with
  | error e => simp [next, getNextPage, hcp, hl, hparse, hr]
  | ok res =>
    cases hconv : convertToPage res with
    | panic m => simp [next, getNextPage, hcp, hl, hparse, hr, hconv]
    | ret v =>
      obtain ⟨pg, e⟩ := v
      cases e <;> simp [next, getNextPage, hcp, hl, hparse, hr, hconv]

/-- A round of `Iterate` in which `enumerate` returns true runs `next`, and
what follows is appended to the trace `next` leaves. -/
theorem Iterate_trace_after_next {α κ τ : Type} (urlParse : String → Option URL)
    (callback : κ → α → Bool × κ) (fuel : Nat) (s : Run α κ τ)
    (p : Option (PageResult α)) (hp : s.pI.currentPage = .of p)
    (henum : (enumerate callback s).1 = true) :
    ∃ evs, (Iterate urlParse callback (fuel + 1) s).2.trace =
      (next urlParse (enumerate callback s).2).2.trace ++ evs := by
  have hE : enumerate callback s = (true, (enumerate callback s).2) :=
    Prod.ext henum rfl
  rw [Iterate]
  simp only [hp]
  rw [hE]
  simp only
  cases hN : next urlParse (enumerate callback s).2 with
  | mk o s2 =>
    cases o with
    | panic m => exact ⟨[], by simp⟩
    | ret v =>
      cases v with
      | some err => exact ⟨[], by simp⟩
      | none =>
        simp only
        obtain ⟨e3, he3⟩ := Iterate_trace urlParse callback fuel
          { s2 with pI := { s2.pI with pauseIndex := 0 } }
        exact ⟨e3, he3⟩

theorem sentRequests_append {α : Type} (a b : List (Event α)) :
    sentRequests (a ++ b) = sentRequests a ++ sentRequests b := by
  induction a with
  | nil => rfl
  | cons e es ih => cases e <;> simp [sentRequests, ih]

theorem sentRequests_callbacks {α : Type} (xs : List α) (b : Bool) :
    sentRequests (xs.map (fun x => Event.callback x b)) = [] := by
  induction xs with
  | nil => rfl
  | cons x xs ih => simp [sentRequests, ih]

theorem deliveredItems_append {α : Type} (a b : List (Event α)) :
    deliveredItems (a ++ b) = deliveredItems a ++ deliveredItems b := by
  induction a with
  | nil => rfl
  | cons e es ih => cases e <;> simp [deliveredItems, ih]

theorem deliveredItems_callbacks {α : Type} (xs : List α) (b : Bool) :
    deliveredItems (xs.map (fun x => Event.callback x b)) = xs := by
  induction xs with
  | nil => rfl
  | cons x xs ih => simp [deliveredItems, ih]

theorem callbackResults_append {α : Type} (a b : List (Event α)) :
    callbackResults (a ++ b) = callbackResults a ++ callbackResults b := by
  induction a with
  | nil => rfl
  | cons e es ih => cases e <;> simp [callbackResults, ih]

theorem callbackResults_callbacks {α : Type} (xs : List α) (b : Bool) :
    callbackResults (xs.map (fun x => Event.callback x b)) = List.replicate xs.length b := by
  induction xs with
  | nil => rfl
  | cons x xs ih => simp [callbackResults, ih, List.replicate_succ]

theorem replicate_true_append_eq (a : Nat) :
    ∀ (b : Nat) (R : List Bool),
      List.replicate a true ++ R = List.replicate b true ++ [false] →
      a ≤ b ∧ R = List.replicate (b - a) true ++ [false] := by
  induction a with
  | zero => intro b R h; simpa using h
  | succ a ih =>
    intro b R h
    cases b with
    | zero => simp [List.replicate_succ] at h
    | succ b =>
      simp only [List.replicate_succ, List.cons_append, List.cons.injEq, true_and] at h
      obtain ⟨h1, h2⟩ := ih b R h
      exact ⟨by omega, by simpa using h2⟩

/-- Once `currentPage` holds the nil page pointer, `Iterate` changes nothing. -/
theorem Iterate_nilPtr {α κ τ : Type} (urlParse : String → Option URL)
    (callback : κ → α → Bool × κ) (fuel : Nat) (s : Run α κ τ)
    (hp : s.pI.currentPage = .of none) :
    (Iterate urlParse callback fuel s).2 = s ∧
    (Iterate urlParse callback (fuel + 1) s).1 = .returned none := by
  have h1 : Iterate urlParse callback (fuel + 1) s = (.returned none, s) := by
    have := Iterate_enumerate_false urlParse callback fuel s none hp
      (by rw [enumerate_nilPtr callback s hp])
    rw [this, enumerate_nilPtr callback s hp]
  refine ⟨?_, by rw [h1]⟩
  cases fuel with
  | zero => simp [Iterate]
  | succ n =>
    have := Iterate_enumerate_false urlParse callback n s none hp
      (by rw [enumerate_nilPtr callback s hp])
    rw [this, enumerate_nilPtr callback s hp]


/-- A pause on a page entered at `pauseIndex` 0: if `enumerate` returns false
after the callback returned true `k - 1` times and then false, the first `k`
items of the page were delivered, the pausing call is the last event, and
`pauseIndex` is one past the pausing item. -/
theorem enumerate_false_fresh {α κ τ : Type} (callback : κ → α → Bool × κ)
    (s : Run α κ τ) (p : PageResult α) (xs : List α)
    (hp : s.pI.currentPage = .of (some p)) (hv : p.value = some xs)
    (h0 : s.pI.pauseIndex = 0) (henum : (enumerate callback s).1 = false) :
    ∃ evs, (enumerate callback s).2.trace = s.trace ++ evs ∧
      ∀ k, 1 ≤ k → callbackResults evs = List.replicate (k - 1) true ++ [false] →
        deliveredItems evs = xs.take k ∧
        (∃ before x, evs = before ++ [Event.callback x false]) ∧
        (enumerate callback s).2.pI.currentPage = .of (some p) ∧
        (enumerate callback s).2.pI.pauseIndex = (k - 1) + 1 ∧
        k - 1 < xs.length := by
  by_cases hge : xs.length ≤ s.pI.pauseIndex
  · rw [enumerate_exhausted callback s p xs hp hv hge]
    refine ⟨[], by simp, ?_⟩
    intro k _ hk
    simp [callbackResults] at hk
  · have hE : enumerate callback s = enumerateLoop callback xs 0 s := by
      have hn : ¬ s.pI.pauseIndex ≥ xs.length := hge
      simp only [enumerate, hp, getValue, hv, hn, if_false]
      rw [h0, List.drop_zero]
    rw [hE] at henum ⊢
    obtain ⟨j, x, hx, h1, _, h3⟩ := enumerateLoop_false callback xs 0 s henum
    obtain ⟨hj, hxj⟩ := List.getElem?_eq_some.1 hx
    refine ⟨(xs.take j).map (fun x => Event.callback x true) ++ [Event.callback x false],
      by rw [h3, List.append_assoc], ?_⟩
    intro k hk1 hk
    rw [callbackResults_append, callbackResults_callbacks] at hk
    have hlen : (xs.take j).length = j := by
      rw [List.length_take]; omega
    rw [hlen] at hk
    have hcr : callbackResults [Event.callback x false] = [false] := rfl
    rw [hcr] at hk
    obtain ⟨hle, hR⟩ := replicate_true_append_eq j (k - 1) [false] hk
    have hkj : k - 1 = j := by
      have := congrArg List.length hR
      simp at this
      omega
    have hk' : k = j + 1 := by omega
    refine ⟨?_, ⟨_, x, rfl⟩, ?_, ?_, ?_⟩
    · rw [deliveredItems_append, deliveredItems_callbacks, hk', List.take_succ, hx]
      rfl
    · rw [h1]; exact hp
    · rw [h1, hkj]; simp
    · omega


/-- A round of `Iterate` that fetches the next page: after `enumerate` has
returned true, the link has parsed and the transport has answered with a
response that converts to the page `q`, the loop goes on with `q` as current
page and `pauseIndex` 0. -/
theorem Iterate_fetch_round {α κ τ : Type} (urlParse : String → Option URL)
    (callback : κ → α → Bool × κ) (adapter : SendAsync α τ) (ctor : ParsableConstructor)
    (hdrs : List (String × String)) (opts : List RequestOption) (p q : PageResult α)
    (i0 fuel : Nat) (c : κ) (t : τ) (tr : List (Event α)) (link : String) (u : URL)
    (res : Response α)
    (henum : (enumerate callback
      (⟨⟨.of (some p), adapter, i0, ctor, hdrs, opts⟩, c, t, tr⟩ : Run α κ τ)).1 = true)
    (hl : p.nextLink = some link) (hparse : urlParse link = some u)
    (hok : (adapter t ⟨.GET, u, hdrs, AddRequestOptions [] opts⟩ ctor none).1 = .ok res)
    (hconv : convertToPage res = .ret (some q, none)) :
    Iterate urlParse callback (fuel + 1) ⟨⟨.of (some p), adapter, i0, ctor, hdrs, opts⟩, c, t, tr⟩ =
      Iterate urlParse callback fuel
        ⟨⟨.of (some q), adapter, 0, ctor, hdrs, opts⟩,
          (enumerate callback
            (⟨⟨.of (some p), adapter, i0, ctor, hdrs, opts⟩, c, t, tr⟩ : Run α κ τ)).2.cbState,
          (adapter t ⟨.GET, u, hdrs, AddRequestOptions [] opts⟩ ctor none).2,
          (enumerate callback
            (⟨⟨.of (some p), adapter, i0, ctor, hdrs, opts⟩, c, t, tr⟩ : Run α κ τ)).2.trace ++
            [Event.send ⟨.GET, u, hdrs, AddRequestOptions [] opts⟩ ctor none]⟩ := by
  obtain ⟨p', xs', hp', hv', hlt, hpI, htp, htrace⟩ := enumerate_true callback _ henum
  have hnext := next_sendOk urlParse (enumerate callback
    (⟨⟨.of (some p), adapter, i0, ctor, hdrs, opts⟩, c, t, tr⟩ : Run α κ τ)).2 (some p)
    link u res q (by rw [hpI]) (by simpa [getNextLink] using hl) hparse
    (by rw [hpI, htp]; exact hok) hconv
  rw [Iterate_next_ok urlParse callback fuel _ _ (some p) rfl henum hnext]
  simp only [hpI, htp]

/-- The round of `Iterate` after the last page: after `enumerate` has
returned true on a page with no next link, the loop goes on with the nil page
pointer as current page. -/
theorem Iterate_last_round {α κ τ : Type} (urlParse : String → Option URL)
    (callback : κ → α → Bool × κ) (adapter : SendAsync α τ) (ctor : ParsableConstructor)
    (hdrs : List (String × String)) (opts : List RequestOption) (p : PageResult α)
    (i0 fuel : Nat) (c : κ) (t : τ) (tr : List (Event α))
    (henum : (enumerate callback
      (⟨⟨.of (some p), adapter, i0, ctor, hdrs, opts⟩, c, t, tr⟩ : Run α κ τ)).1 = true)
    (hl : p.nextLink = none) :
    Iterate urlParse callback (fuel + 1) ⟨⟨.of (some p), adapter, i0, ctor, hdrs, opts⟩, c, t, tr⟩ =
      Iterate urlParse callback fuel
        ⟨⟨.of none, adapter, 0, ctor, hdrs, opts⟩,
          (enumerate callback
            (⟨⟨.of (some p), adapter, i0, ctor, hdrs, opts⟩, c, t, tr⟩ : Run α κ τ)).2.cbState,
          t,
          (enumerate callback
            (⟨⟨.of (some p), adapter, i0, ctor, hdrs, opts⟩, c, t, tr⟩ : Run α κ τ)).2.trace⟩ := by
  obtain ⟨p', xs', hp', hv', hlt, hpI, htp, htrace⟩ := enumerate_true callback _ henum
  have hnext := next_noLink urlParse (enumerate callback
    (⟨⟨.of (some p), adapter, i0, ctor, hdrs, opts⟩, c, t, tr⟩ : Run α κ τ)).2 (some p)
    (by rw [hpI]) (by simpa [getNextLink] using hl)
  rw [Iterate_next_ok urlParse callback fuel _ _ (some p) rfl henum hnext]
  simp only [hpI, htp]

/-- What `enumerate` with result true leaves in the trace, for a page entered
at `pauseIndex` 0: a callback event with result true for every item. -/
theorem enumerate_true_fresh_trace {α κ τ : Type} (callback : κ → α → Bool × κ)
    (adapter : SendAsync α τ) (ctor : ParsableConstructor)
    (hdrs : List (String × String)) (opts : List RequestOption) (p : PageResult α)
    (xs : List α) (c : κ) (t : τ) (tr : List (Event α)) (hv : p.value = some xs)
    (henum : (enumerate callback
      (⟨⟨.of (some p), adapter, 0, ctor, hdrs, opts⟩, c, t, tr⟩ : Run α κ τ)).1 = true) :
    (enumerate callback
      (⟨⟨.of (some p), adapter, 0, ctor, hdrs, opts⟩, c, t, tr⟩ : Run α κ τ)).2.trace =
      tr ++ xs.map (fun x => Event.callback x true) ∧ 0 < xs.length := by
  obtain ⟨p', xs', hp', hv', hlt, hpI, htp, htrace⟩ := enumerate_true callback _ henum
  simp only at hp' hlt htrace
  injection hp' with h1
  injection h1 with h2
  subst h2
  rw [hv] at hv'
  injection hv' with h3
  subst h3
  rw [htrace, List.drop_zero]
  exact ⟨rfl, hlt⟩

/-- `Iterate` along a chain of pages, entered at `pauseIndex` 0, with any
callback: if the callback returned true `k - 1` times and then false, the
call returned nil, the first `k` items of the chain were delivered, the
pausing call is the last event, the current page is the page `q` of the
chain that holds the `k`-th item and `pauseIndex` is one past its index. -/
theorem Iterate_chain_pause {α κ τ : Type} (urlParse : String → Option URL)
    (callback : κ → α → Bool × κ) (adapter : SendAsync α τ) (ctor : ParsableConstructor)
    (hdrs : List (String × String)) (opts : List RequestOption) :
    ∀ (rest : List (PageResult α)) (p : PageResult α) (fuel : Nat) (c : κ) (t : τ)
      (tr : List (Event α)),
      (∃ xs, p.value = some xs) →
      Chain urlParse adapter hdrs opts ctor p rest →
      ∃ evs,
        (Iterate urlParse callback fuel
          ⟨⟨.of (some p), adapter, 0, ctor, hdrs, opts⟩, c, t, tr⟩).2.trace = tr ++ evs ∧
        ∀ k, 1 ≤ k → callbackResults evs = List.replicate (k - 1) true ++ [false] →
          (Iterate urlParse callback fuel
            ⟨⟨.of (some p), adapter, 0, ctor, hdrs, opts⟩, c, t, tr⟩).1 = .returned none ∧
          deliveredItems evs = (chainItems (p :: rest)).take k ∧
          (∃ before x, evs = before ++ [Event.callback x false]) ∧
          ∃ pre q post i, p :: rest = pre ++ q :: post ∧
            (Iterate urlParse callback fuel
              ⟨⟨.of (some p), adapter, 0, ctor, hdrs, opts⟩, c, t, tr⟩).2.pI.currentPage
                = .of (some q) ∧
            (Iterate urlParse callback fuel
              ⟨⟨.of (some p), adapter, 0, ctor, hdrs, opts⟩, c, t, tr⟩).2.pI.pauseIndex
                = i + 1 ∧
            i < (pageItems q).length ∧
            k = (chainItems pre).length + i + 1 := by
  intro rest
  induction rest with
  | nil =>
    intro p fuel c t tr ⟨xs, hv⟩ hch
    have hpi : pageItems p = xs := by simp [pageItems, hv]
    cases fuel with
    | zero =>
      refine ⟨[], by simp [Iterate], ?_⟩
      intro k _ hk
      simp [callbackResults] at hk
    | succ fuel =>
      cases henum : (enumerate callback
          (⟨⟨.of (some p), adapter, 0, ctor, hdrs, opts⟩, c, t, tr⟩ : Run α κ τ)).1 with
      | false =>
        obtain ⟨evs, htr, hall⟩ := enumerate_false_fresh callback _ p xs rfl hv rfl henum
        rw [Iterate_enumerate_false urlParse callback fuel _ (some p) rfl henum]
        refine ⟨evs, htr, ?_⟩
        intro k hk1 hk
        obtain ⟨h1, h2, h3, h4, h5⟩ := hall k hk1 hk
        refine ⟨rfl, ?_, h2, [], p, [], k - 1, rfl, h3, h4, by rw [hpi]; exact h5, ?_⟩
        · rw [h1]
          simp only [chainItems, hpi, List.append_nil]
        · simp only [chainItems, List.length_nil]; omega
      | true =>
        obtain ⟨htrace, _⟩ := enumerate_true_fresh_trace callback adapter ctor hdrs opts p xs
          c t tr hv henum
        rw [Iterate_last_round urlParse callback adapter ctor hdrs opts p 0 fuel c t tr henum
          (by simpa [Chain] using hch)]
        refine ⟨xs.map (fun x => Event.callback x true), ?_, ?_⟩
        · rw [(Iterate_nilPtr urlParse callback fuel _ rfl).1]
          exact htrace
        · intro k _ hk
          exfalso
          rw [callbackResults_callbacks] at hk
          have := replicate_true_append_eq _ (k - 1) [] (by simpa using hk)
          simp at this
  | cons q rest ih =>
    intro p fuel c t tr ⟨xs, hv⟩ hch
    have hpi : pageItems p = xs := by simp [pageItems, hv]
    cases fuel with
    | zero =>
      refine ⟨[], by simp [Iterate], ?_⟩
      intro k _ hk
      simp [callbackResults] at hk
    | succ fuel =>
      cases henum : (enumerate callback
          (⟨⟨.of (some p), adapter, 0, ctor, hdrs, opts⟩, c, t, tr⟩ : Run α κ τ)).1 with
      | false =>
        obtain ⟨evs, htr, hall⟩ := enumerate_false_fresh callback _ p xs rfl hv rfl henum
        rw [Iterate_enumerate_false urlParse callback fuel _ (some p) rfl henum]
        refine ⟨evs, htr, ?_⟩
        intro k hk1 hk
        obtain ⟨h1, h2, h3, h4, h5⟩ := hall k hk1 hk
        refine ⟨rfl, ?_, h2, [], p, q :: rest, k - 1, rfl, h3, h4, by rw [hpi]; exact h5, ?_⟩
        · rw [h1]
          simp only [chainItems, hpi]
          rw [List.take_append_of_le_length (by omega)]
        · simp only [chainItems, List.length_nil]; omega
      | true =>
        obtain ⟨htrace, hpos⟩ := enumerate_true_fresh_trace callback adapter ctor hdrs opts
          p xs c t tr hv henum
        obtain ⟨⟨link, u, res, hl, hparse, hsend, hconv⟩, hrest⟩ := hch
        rw [Iterate_fetch_round urlParse callback adapter ctor hdrs opts p q 0 fuel c t tr
          link u res henum hl hparse (hsend t) hconv]
        obtain ⟨evs, hevs, hall⟩ := ih q fuel
          (enumerate callback
            (⟨⟨.of (some p), adapter, 0, ctor, hdrs, opts⟩, c, t, tr⟩ : Run α κ τ)).2.cbState
          (adapter t ⟨.GET, u, hdrs, AddRequestOptions [] opts⟩ ctor none).2
          ((enumerate callback
            (⟨⟨.of (some p), adapter, 0, ctor, hdrs, opts⟩, c, t, tr⟩ : Run α κ τ)).2.trace ++
            [Event.send ⟨.GET, u, hdrs, AddRequestOptions [] opts⟩ ctor none])
          (convertToPage_value res q none hconv) hrest
        refine ⟨xs.map (fun x => Event.callback x true) ++
          [Event.send ⟨.GET, u, hdrs, AddRequestOptions [] opts⟩ ctor none] ++ evs, ?_, ?_⟩
        · rw [hevs, htrace]; simp
        · intro k hk1 hk
          rw [callbackResults_append, callbackResults_append, callbackResults_callbacks] at hk
          have hsendres : callbackResults
              [(Event.send ⟨.GET, u, hdrs,
                  AddRequestOptions [] opts⟩ ctor none : Event α)] = [] := rfl
          rw [hsendres, List.append_nil] at hk
          obtain ⟨hle, hR⟩ := replicate_true_append_eq xs.length (k - 1) _ hk
          have hR' : callbackResults evs =
              List.replicate ((k - xs.length) - 1) true ++ [false] := by
            rw [hR]; congr 2; omega
          obtain ⟨h1, h2, ⟨before, x, h3⟩, pre, q', post, i, h4, h5, h6, h7, h8⟩ :=
            hall (k - xs.length) (by omega) hR'
          refine ⟨h1, ?_, ⟨xs.map (fun x => Event.callback x true) ++
            [Event.send ⟨.GET, u, hdrs, AddRequestOptions [] opts⟩ ctor none] ++ before, x, ?_⟩,
            p :: pre, q', post, i, ?_, h5, h6, h7, ?_⟩
          · rw [deliveredItems_append, deliveredItems_append, deliveredItems_callbacks, h2]
            have hd : deliveredItems
                [(Event.send ⟨.GET, u, hdrs,
                    AddRequestOptions [] opts⟩ ctor none : Event α)] = [] := rfl
            rw [hd, List.append_nil]
            have hk' : k = xs.length + (k - xs.length) := by omega
            conv_rhs => rw [hk']
            simp only [chainItems, hpi]
            rw [List.take_append]
          · rw [h3]; simp
          · rw [h4]; rfl
          · simp only [chainItems, hpi, List.length_append]; omega

theorem deliveredItems_length {α : Type} (evs : List (Event α)) :
    (deliveredItems evs).length = (callbackResults evs).length := by
  induction evs with
  | nil => rfl
  | cons e es ih => cases e <;> simp [deliveredItems, callbackResults, ih]

/-- What `enumerate` with result true leaves in the trace, for a page entered
at `pauseIndex` `i0`: a callback event with result true for every item from
`i0` on. -/
theorem enumerate_true_trace_at {α κ τ : Type} (callback : κ → α → Bool × κ)
    (adapter : SendAsync α τ) (ctor : ParsableConstructor)
    (hdrs : List (String × String)) (opts : List RequestOption) (p : PageResult α)
    (xs : List α) (i0 : Nat) (c : κ) (t : τ) (tr : List (Event α)) (hv : p.value = some xs)
    (henum : (enumerate callback
      (⟨⟨.of (some p), adapter, i0, ctor, hdrs, opts⟩, c, t, tr⟩ : Run α κ τ)).1 = true) :
    (enumerate callback
      (⟨⟨.of (some p), adapter, i0, ctor, hdrs, opts⟩, c, t, tr⟩ : Run α κ τ)).2.trace =
      tr ++ (xs.drop i0).map (fun x => Event.callback x true) := by
  obtain ⟨p', xs', hp', hv', hlt, hpI, htp, htrace⟩ := enumerate_true callback _ henum
  simp only at hp' hlt htrace
  injection hp' with h1
  injection h1 with h2
  subst h2
  rw [hv] at hv'
  injection hv' with h3
  subst h3
  exact htrace

/-- Full traversal of a passable chain: with a callback that always returns
true and enough fuel, `Iterate` started at index `i0` of the first page
returns nil, delivers the items of the first page from `i0` on and then all
items of the later pages, in order, and gives the transport one request per
later page. -/
theorem Iterate_chain_full {α κ τ : Type} (urlParse : String → Option URL)
    (callback : κ → α → Bool × κ) (hcb : ∀ c x, (callback c x).1 = true)
    (adapter : SendAsync α τ) (ctor : ParsableConstructor)
    (hdrs : List (String × String)) (opts : List RequestOption) :
    ∀ (rest : List (PageResult α)) (p : PageResult α) (i0 fuel : Nat) (c : κ) (t : τ)
      (tr : List (Event α)),
      (∃ xs, p.value = some xs) →
      Chain urlParse adapter hdrs opts ctor p rest →
      Passable i0 p rest →
      rest.length + 2 ≤ fuel →
      (Iterate urlParse callback fuel
        ⟨⟨.of (some p), adapter, i0, ctor, hdrs, opts⟩, c, t, tr⟩).1 = .returned none ∧
      ∃ evs,
        (Iterate urlParse callback fuel
          ⟨⟨.of (some p), adapter, i0, ctor, hdrs, opts⟩, c, t, tr⟩).2.trace = tr ++ evs ∧
        deliveredItems evs = (pageItems p).drop i0 ++ chainItems rest ∧
        (∀ b ∈ callbackResults evs, b = true) ∧
        (sentRequests evs).length = rest.length := by
  intro rest
  induction rest with
  | nil =>
    intro p i0 fuel c t tr ⟨xs, hv⟩ hch _ hfuel
    have hpi : pageItems p = xs := by simp [pageItems, hv]
    obtain ⟨f, rfl⟩ : ∃ f, fuel = f + 2 := ⟨fuel - 2, by simp at hfuel; omega⟩
    by_cases hge : xs.length ≤ i0
    · have hE := enumerate_exhausted callback
        (⟨⟨.of (some p), adapter, i0, ctor, hdrs, opts⟩, c, t, tr⟩ : Run α κ τ) p xs rfl hv hge
      rw [Iterate_enumerate_false urlParse callback (f + 1) _ (some p) rfl (by rw [hE]), hE]
      refine ⟨rfl, [], by simp, ?_, by simp [callbackResults], by simp [sentRequests]⟩
      simp [deliveredItems, chainItems, hpi, List.drop_eq_nil_of_le hge]
    · have henum := enumerate_alwaysTrue callback hcb
        (⟨⟨.of (some p), adapter, i0, ctor, hdrs, opts⟩, c, t, tr⟩ : Run α κ τ) p xs rfl hv
        (by simpa using hge)
      have htrace := enumerate_true_trace_at callback adapter ctor hdrs opts p xs i0 c t tr
        hv henum
      rw [Iterate_last_round urlParse callback adapter ctor hdrs opts p i0 (f + 1) c t tr henum
        (by simpa [Chain] using hch)]
      obtain ⟨_, h2⟩ := Iterate_nilPtr urlParse callback f
        (⟨⟨.of none, adapter, 0, ctor, hdrs, opts⟩,
          (enumerate callback
            (⟨⟨.of (some p), adapter, i0, ctor, hdrs, opts⟩, c, t, tr⟩ : Run α κ τ)).2.cbState,
          t,
          (enumerate callback
            (⟨⟨.of (some p), adapter, i0, ctor, hdrs, opts⟩, c, t, tr⟩ : Run α κ τ)).2.trace⟩ :
          Run α κ τ) rfl
      have h3 := (Iterate_nilPtr urlParse callback (f + 1)
        (⟨⟨.of none, adapter, 0, ctor, hdrs, opts⟩,
          (enumerate callback
            (⟨⟨.of (some p), adapter, i0, ctor, hdrs, opts⟩, c, t, tr⟩ : Run α κ τ)).2.cbState,
          t,
          (enumerate callback
            (⟨⟨.of (some p), adapter, i0, ctor, hdrs, opts⟩, c, t, tr⟩ : Run α κ τ)).2.trace⟩ :
          Run α κ τ) rfl).1
      rw [h2, h3]
      refine ⟨rfl, (xs.drop i0).map (fun x => Event.callback x true), htrace, ?_, ?_, ?_⟩
      · rw [deliveredItems_callbacks, hpi]; simp [chainItems]
      · intro b hb
        rw [callbackResults_callbacks] at hb
        exact List.eq_of_mem_replicate hb
      · rw [sentRequests_callbacks]; rfl
  | cons q rest ih =>
    intro p i0 fuel c t tr ⟨xs, hv⟩ hch hpass hfuel
    have hpi : pageItems p = xs := by simp [pageItems, hv]
    obtain ⟨f, rfl⟩ : ∃ f, fuel = f + 1 := ⟨fuel - 1, by simp at hfuel; omega⟩
    obtain ⟨hlt, hpass'⟩ := hpass
    rw [hpi] at hlt
    have henum := enumerate_alwaysTrue callback hcb
      (⟨⟨.of (some p), adapter, i0, ctor, hdrs, opts⟩, c, t, tr⟩ : Run α κ τ) p xs rfl hv hlt
    have htrace := enumerate_true_trace_at callback adapter ctor hdrs opts p xs i0 c t tr
      hv henum
    obtain ⟨⟨link, u, res, hl, hparse, hsend, hconv⟩, hrest⟩ := hch
    rw [Iterate_fetch_round urlParse callback adapter ctor hdrs opts p q i0 f c t tr
      link u res henum hl hparse (hsend t) hconv]
    obtain ⟨hret, evs, hevs, hdel, hres, hsent⟩ := ih q 0 f
      (enumerate callback
        (⟨⟨.of (some p), adapter, i0, ctor, hdrs, opts⟩, c, t, tr⟩ : Run α κ τ)).2.cbState
      (adapter t ⟨.GET, u, hdrs, AddRequestOptions [] opts⟩ ctor none).2
      ((enumerate callback
        (⟨⟨.of (some p), adapter, i0, ctor, hdrs, opts⟩, c, t, tr⟩ : Run α κ τ)).2.trace ++
        [Event.send ⟨.GET, u, hdrs, AddRequestOptions [] opts⟩ ctor none])
      (convertToPage_value res q none hconv) hrest hpass'
      (by simp only [List.length_cons] at hfuel; omega)
    refine ⟨hret, (xs.drop i0).map (fun x => Event.callback x true) ++
      [Event.send ⟨.GET, u, hdrs, AddRequestOptions [] opts⟩ ctor none] ++ evs, ?_, ?_, ?_, ?_⟩
    · rw [hevs, htrace]; simp only [List.append_assoc]
    · rw [deliveredItems_append, deliveredItems_append, deliveredItems_callbacks, hdel, hpi]
      simp [deliveredItems, chainItems]
    · intro b hb
      rw [callbackResults_append, callbackResults_append, callbackResults_callbacks] at hb
      simp only [callbackResults, List.append_nil, List.mem_append] at hb
      rcases hb with hb | hb
      · exact List.eq_of_mem_replicate hb
      · exact hres b hb
    · rw [sentRequests_append, sentRequests_append, sentRequests_callbacks]
      simp [sentRequests, hsent]

theorem NewPageIterator_ok {α τ : Type} (res : Response α) (adapter : SendAsync α τ)
    (ctor : ParsableConstructor) (pI : PageIterator α τ)
    (h : NewPageIterator res adapter ctor = .ret (some pI, none)) :
    ∃ p, convertToPage res = .ret (some p, none) ∧
      pI = ⟨.of (some p), adapter, 0, ctor, [], []⟩ := by
  unfold NewPageIterator at h
  cases hc : convertToPage res with
  | panic m => simp [hc] at h
  | ret v =>
    obtain ⟨pg, e⟩ := v
    cases e with
    | some err => simp [hc] at h
    | none =>
      cases pg with
      | none =>
        cases res with
        | none => simp [convertToPage] at hc
        | some ref =>
          obtain ⟨v, nl⟩ := ref
          cases v <;> cases nl <;> simp [convertToPage] at hc
      | some p =>
        simp only [hc, Go.ret.injEq, Prod.mk.injEq, Option.some.injEq, and_true] at h
        exact ⟨p, rfl, h.symm⟩

/-! ## Claims -/

/-- C1, the code at the failing input: the first page has no items and a next
link, the transport serves a second and last page with the item 7 for that
link, so the chain has one item.  `Iterate` on the fresh iterator with a
callback that always returns true returns nil having invoked neither the
callback nor the transport: the item 7 is never delivered. -/
theorem C1_empty_page_stops_traversal :
    NewPageIterator emptyFirst demoAdapter ⟨0⟩ = .ret (some emptyFirstIterator, none) ∧
    Chain parseAny demoAdapter [] [] ⟨0⟩ ⟨some "page2", some []⟩ [⟨none, some [7]⟩] ∧
    chainItems [(⟨some "page2", some []⟩ : PageResult Nat), ⟨none, some [7]⟩] = [7] ∧
    ∀ fuel : Nat,
      (Iterate parseAny alwaysTrue (fuel + 1) (start emptyFirstIterator () 0)).1
          = .returned none ∧
      (Iterate parseAny alwaysTrue (fuel + 1) (start emptyFirstIterator () 0)).2.trace = [] := by
  refine ⟨rfl, ?_, rfl, fun fuel => ⟨rfl, rfl⟩⟩
  exact ⟨⟨"page2", ⟨"page2"⟩, oneLast, rfl, rfl, fun _ => rfl, rfl⟩, rfl⟩

/-- C3, the code at the failing input: two pages with items 1, 2 and 7
(S = 3).  The first `Iterate` call pauses on the second item, the last of
page 1 (k = 2).  A following `Iterate` call with a callback that always
returns true returns nil without delivering anything: the trace is still the
two deliveries of the first call, and the remaining item 7 is not delivered. -/
theorem C3_resume_after_last_item_of_page_delivers_nothing :
    ∀ fuel fuel2 : Nat,
      (Iterate parseAny (falseOnCall 2) (fuel + 1) (start twoFirstIterator 0 0)).1
          = .returned none ∧
      (Iterate parseAny (falseOnCall 2) (fuel + 1) (start twoFirstIterator 0 0)).2.trace
          = [.callback 1 true, .callback 2 false] ∧
      (Iterate parseAny alwaysTrue (fuel2 + 1)
          (resume (Iterate parseAny (falseOnCall 2) (fuel + 1)
            (start twoFirstIterator 0 0)).2 ())).1 = .returned none ∧
      (Iterate parseAny alwaysTrue (fuel2 + 1)
          (resume (Iterate parseAny (falseOnCall 2) (fuel + 1)
            (start twoFirstIterator 0 0)).2 ())).2.trace
          = [.callback 1 true, .callback 2 false] := by
  intro fuel fuel2
  exact ⟨rfl, rfl, rfl, rfl⟩

/-- C4, the code at the failing input: page 1 has the items 1, 2 and a next
link that the transport serves.  After the callback has returned false on
the last item of page 1, `currentPage` is page 1 with `pauseIndex` 2, and the
next `Iterate` call returns nil without any transport call: page 1 stays the
current page, `pauseIndex` stays 2, and no item of page 2 is delivered. -/
theorem C4_resume_at_page_boundary_does_not_fetch :
    ∀ fuel fuel2 : Nat,
      (Iterate parseAny (falseOnCall 2) (fuel + 1)
          (start twoFirstIterator 0 0)).2.pI.currentPage
          = .of (some ⟨some "page2", some [1, 2]⟩) ∧
      (Iterate parseAny (falseOnCall 2) (fuel + 1)
          (start twoFirstIterator 0 0)).2.pI.pauseIndex = 2 ∧
      (Iterate parseAny alwaysTrue (fuel2 + 1)
          (start (Iterate parseAny (falseOnCall 2) (fuel + 1)
            (start twoFirstIterator 0 0)).2.pI () 0)).1 = .returned none ∧
      (Iterate parseAny alwaysTrue (fuel2 + 1)
          (start (Iterate parseAny (falseOnCall 2) (fuel + 1)
            (start twoFirstIterator 0 0)).2.pI () 0)).2.trace = [] ∧
      (Iterate parseAny alwaysTrue (fuel2 + 1)
          (start (Iterate parseAny (falseOnCall 2) (fuel + 1)
            (start twoFirstIterator 0 0)).2.pI () 0)).2.pI.currentPage
          = .of (some ⟨some "page2", some [1, 2]⟩) ∧
      (Iterate parseAny alwaysTrue (fuel2 + 1)
          (start (Iterate parseAny (falseOnCall 2) (fuel + 1)
            (start twoFirstIterator 0 0)).2.pI () 0)).2.pI.pauseIndex = 2 := by
  intro fuel fuel2
  exact ⟨rfl, rfl, rfl, rfl, rfl, rfl⟩

/-- C5: fetch failure leaves the state intact.  When `enumerate` has gone
through the current page without pause (it returned true), the page's next
link parses and the transport returns an error `e`, whatever it is, `Iterate`
returns the error "Fetching next page failed"; the iterator is the one the
fetch attempt started with, in particular `currentPage` and `pauseIndex` are
unchanged; and the first request of a following `Iterate` call with an
always-true callback, in any transport state, is again the request for the
same next-link URL. -/
theorem C5_fetch_failure_keeps_state {α κ τ : Type} (urlParse : String → Option URL)
    (callback : κ → α → Bool × κ) (s : Run α κ τ) (p : PageResult α) (link : String)
    (u : URL) (e : GoError) (fuel : Nat)
    (hpage : s.pI.currentPage = .of (some p))
    (henum : (enumerate callback s).1 = true)
    (hlink : p.nextLink = some link) (hparse : urlParse link = some u)
    (hfail : (s.pI.reqAdapter s.transport ⟨.GET, u, s.pI.headers,
        AddRequestOptions [] s.pI.reqOptions⟩
      s.pI.constructorFunc none).1 = .error e) :
    (Iterate urlParse callback (fuel + 1) s).1
        = .returned (some "Fetching next page failed") ∧
    (Iterate urlParse callback (fuel + 1) s).2.pI = (enumerate callback s).2.pI ∧
    (Iterate urlParse callback (fuel + 1) s).2.pI.currentPage = .of (some p) ∧
    (Iterate urlParse callback (fuel + 1) s).2.pI.pauseIndex = s.pI.pauseIndex ∧
    sentRequests (Iterate urlParse callback (fuel + 1) s).2.trace =
      sentRequests s.trace ++ [⟨.GET, u, s.pI.headers, AddRequestOptions [] s.pI.reqOptions⟩] ∧
    ∀ (κ2 : Type) (cb2 : κ2 → α → Bool × κ2) (c2 : κ2) (t2 : τ) (fuel2 : Nat),
      (∀ c x, (cb2 c x).1 = true) →
      ∃ more,
        sentRequests (Iterate urlParse cb2 (fuel2 + 1)
          (start (Iterate urlParse callback (fuel + 1) s).2.pI c2 t2)).2.trace =
          ⟨.GET, u, s.pI.headers, AddRequestOptions [] s.pI.reqOptions⟩ :: more := by
  obtain ⟨p', xs, hp', hv, hlt, hpI, htr, htrace⟩ := enumerate_true callback s henum
  have hpp : p' = p := by
    rw [hpage] at hp'
    injection hp' with h1
    injection h1 with h2
    exact h2.symm
  subst hpp
  have hcp1 : (enumerate callback s).2.pI.currentPage = .of (some p') := by
    rw [hpI, hpage]
  have hfail1 : ((enumerate callback s).2.pI.reqAdapter (enumerate callback s).2.transport
      ⟨.GET, u, (enumerate callback s).2.pI.headers,
        AddRequestOptions [] (enumerate callback s).2.pI.reqOptions⟩
      (enumerate callback s).2.pI.constructorFunc none).1 = .error e := by
    rw [hpI, htr]; exact hfail
  have hnext := next_sendError urlParse (enumerate callback s).2 (some p') link u e hcp1
    (by simpa [getNextLink] using hlink) hparse hfail1
  have hit := Iterate_next_error urlParse callback fuel s _ (some p') _ hpage henum hnext
  rw [hit]
  refine ⟨rfl, rfl, hcp1, by simp [hpI], ?_, ?_⟩
  · simp only [htrace, hpI, sentRequests_append, sentRequests_callbacks, sentRequests,
      List.append_nil]
  · intro κ2 cb2 c2 t2 fuel2 hcb2
    simp only
    have hs0 : (start (enumerate callback s).2.pI c2 t2 : Run α κ2 τ).pI = s.pI := by
      simp [start, hpI]
    have hcp2 : (start (enumerate callback s).2.pI c2 t2 : Run α κ2 τ).pI.currentPage
        = .of (some p') := by rw [hs0, hpage]
    have hlt2 : (start (enumerate callback s).2.pI c2 t2 : Run α κ2 τ).pI.pauseIndex
        < xs.length := by rw [hs0]; exact hlt
    have hen2 := enumerate_alwaysTrue cb2 hcb2 _ p' xs hcp2 hv hlt2
    obtain ⟨p2, xs2, _, _, _, hpI2, _, htrace2⟩ := enumerate_true cb2 _ hen2
    obtain ⟨evs, hevs⟩ := Iterate_trace_after_next urlParse cb2 fuel2 _ (some p') hcp2 hen2
    have hsend := next_trace_send urlParse
      (enumerate cb2 (start (enumerate callback s).2.pI c2 t2)).2 (some p') link u
      (by rw [hpI2, hcp2]) (by simpa [getNextLink] using hlink) hparse
    rw [hevs, hsend, htrace2, hpI2, hs0]
    refine ⟨sentRequests evs, ?_⟩
    simp only [start, sentRequests_append, sentRequests_callbacks, sentRequests,
      List.nil_append, List.singleton_append, List.cons_append]

/-- C5 at a concrete input: a page with items 1, 2 and a next link, and a
transport that fails on every request. -/
theorem C5_fetch_failure_keeps_state_witness :
    (Iterate parseAny alwaysTrue 1 (start twoFirstFailing () 0)).1
        = .returned (some "Fetching next page failed") ∧
    (Iterate parseAny alwaysTrue 1 (start twoFirstFailing () 0)).2.pI.currentPage
        = .of (some ⟨some "page2", some [1, 2]⟩) ∧
    (Iterate parseAny alwaysTrue 1 (start twoFirstFailing () 0)).2.pI.pauseIndex = 0 :=
  have h := C5_fetch_failure_keeps_state parseAny alwaysTrue (start twoFirstFailing () 0)
    ⟨some "page2", some [1, 2]⟩ "page2" ⟨"page2"⟩ "no such page" 0 rfl rfl rfl rfl rfl
  ⟨h.1, h.2.2.1, h.2.2.2.1⟩

/-- C7, the claim fails where the struct has no field named value: there
`convertToPage` panics in `reflect.Value.IsNil`, so `NewPageIterator` returns
neither an error nor an iterator. -/
theorem C7_absent_value_field_panics :
    NewPageIterator noValueField demoAdapter ⟨0⟩
        = .panic "reflect: call of reflect.Value.IsNil on zero Value" ∧
    NewPageIterator noValueField demoAdapter ⟨0⟩
        ≠ .ret (none, some "value property missing in response object") := by
  refine ⟨rfl, ?_⟩
  intro h
  cases h

/-- C7 as amended: for every non-nil response whose field value is present
and holds nil, whatever its field nextLink, `NewPageIterator` returns the
error "value property missing in response object" together with a nil
iterator, as an ordinary error result. -/
theorem C7_nil_value_field {α τ : Type} (nl : Field String) (adapter : SendAsync α τ)
    (ctor : ParsableConstructor) :
    NewPageIterator (some ⟨.isNil, nl⟩ : Response α) adapter ctor
        = .ret (none, some "value property missing in response object") := by
  simp [NewPageIterator, convertToPage]

/-- C8, the claim fails on a response with a non-nil value sequence whose
struct has no field named nextLink: `NewPageIterator` panics there and
returns no iterator. -/
theorem C8_value_without_nextLink_field_panics :
    NewPageIterator noNextLinkField demoAdapter ⟨0⟩
        = .panic "reflect: call of reflect.Value.IsNil on zero Value" ∧
    ¬ ∃ pI, NewPageIterator noNextLinkField demoAdapter ⟨0⟩ = .ret (some pI, none) := by
  refine ⟨rfl, ?_⟩
  rintro ⟨pI, h⟩
  cases h

/-- C8 as amended: `NewPageIterator` returns an error exactly when
`convertToPage` returns one on the initial response, it is the same error and
the iterator is nil; with a nil error the iterator is not nil; it panics
exactly when `convertToPage` does; a nil response yields the error "response
cannot be nil"; and every response with a non-nil value sequence whose struct
has a field nextLink (nil or not) yields a non-nil iterator with a nil
error. -/
theorem C8_construction_errors {α τ : Type} (res : Response α) (adapter : SendAsync α τ)
    (ctor : ParsableConstructor) :
    (∀ e, (∃ it, NewPageIterator res adapter ctor = .ret (it, some e)) ↔
      (∃ pg, convertToPage res = .ret (pg, some e))) ∧
    (∀ it e, NewPageIterator res adapter ctor = .ret (it, some e) → it = none) ∧
    (∀ it, NewPageIterator res adapter ctor = .ret (it, none) → ∃ pI, it = some pI) ∧
    (∀ m, NewPageIterator res adapter ctor = .panic m ↔ convertToPage res = .panic m) ∧
    NewPageIterator (none : Response α) adapter ctor
        = .ret (none, some "response cannot be nil") ∧
    (∀ (xs : List α) (nl : Field String), nl ≠ .absent →
      ∃ pI, NewPageIterator (some ⟨.holds xs, nl⟩) adapter ctor = .ret (some pI, none)) := by
  refine ⟨?_, ?_, ?_, ?_, ?_, ?_⟩
  · intro e
    unfold NewPageIterator
    cases hc : convertToPage res with
    | panic m => simp
    | ret v =>
      obtain ⟨pg, e'⟩ := v
      cases e' with
      | none => simp
      | some err =>
        simp only [Go.ret.injEq, Prod.mk.injEq, Option.some.injEq]
        constructor
        · rintro ⟨it, _, h⟩
          exact ⟨pg, rfl, h⟩
        · rintro ⟨pg', _, h⟩
          exact ⟨none, rfl, h⟩
  · intro it e
    unfold NewPageIterator
    cases hc : convertToPage res with
    | panic m => simp
    | ret v =>
      obtain ⟨pg, e'⟩ := v
      cases e' with
      | none => simp
      | some err =>
        simp only [Go.ret.injEq, Prod.mk.injEq, Option.some.injEq]
        rintro ⟨h, _⟩
        exact h.symm
  · intro it
    unfold NewPageIterator
    cases hc : convertToPage res with
    | panic m => simp
    | ret v =>
      obtain ⟨pg, e'⟩ := v
      cases e' with
      | some err => simp
      | none =>
        simp only [Go.ret.injEq, Prod.mk.injEq, and_true]
        intro h
        exact ⟨_, h.symm⟩
  · intro m
    unfold NewPageIterator
    cases hc : convertToPage res with
    | panic m' => simp
    | ret v =>
      obtain ⟨pg, e'⟩ := v
      cases e' <;> simp
  · simp [NewPageIterator, convertToPage]
  · intro xs nl hnl
    cases nl with
    | absent => exact absurd rfl hnl
    | isNil => exact ⟨_, by simp [NewPageIterator, convertToPage]; rfl⟩
    | holds l => exact ⟨_, by simp [NewPageIterator, convertToPage]; rfl⟩

/-- C8 at concrete inputs: a response that holds the items 1, 2 and a next
link yields an iterator, and an error of `NewPageIterator` comes with a nil
iterator. -/
theorem C8_construction_errors_witness :
    (∃ pI, NewPageIterator twoFirst demoAdapter ⟨0⟩ = .ret (some pI, none)) ∧
    (∀ it e, NewPageIterator (some ⟨.isNil, .isNil⟩ : Response Nat) demoAdapter ⟨0⟩
      = .ret (it, some e) → it = none) :=
  ⟨(C8_construction_errors twoFirst demoAdapter ⟨0⟩).2.2.2.2.2 [1, 2] (.holds "page2")
      (by decide),
    (C8_construction_errors (some ⟨.isNil, .isNil⟩ : Response Nat) demoAdapter ⟨0⟩).2.1⟩

/-- C9, the claim fails for a next link that is present and holds the empty
string: `convertToPage` keeps the link, `url.Parse` accepts the empty string,
and `Iterate`, after it has delivered the page's item, gives the transport a
request for the empty URL; here the transport fails on it and `Iterate`
returns an error instead of nil. -/
theorem C9_empty_string_link_is_fetched :
    NewPageIterator emptyLink demoAdapter ⟨0⟩ = .ret (some emptyLinkIterator, none) ∧
    ∀ fuel : Nat,
      (Iterate parseAny alwaysTrue (fuel + 1) (start emptyLinkIterator () 0)).1
          = .returned (some "Fetching next page failed") ∧
      deliveredItems (Iterate parseAny alwaysTrue (fuel + 1)
          (start emptyLinkIterator () 0)).2.trace = [1] ∧
      sentRequests (Iterate parseAny alwaysTrue (fuel + 1)
          (start emptyLinkIterator () 0)).2.trace = [⟨.GET, ⟨""⟩, [], []⟩] := by
  refine ⟨rfl, fun fuel => ⟨rfl, rfl, rfl⟩⟩

/-- C9 as amended: for every response with a value sequence whose field
nextLink is present and holds nil, the page built from it has no next page:
`NewPageIterator` succeeds, `hasNext` is false, and `Iterate` with a callback
that always returns true delivers all the items of the page in order and
returns nil without any transport call. -/
theorem C9_nil_next_link_is_last_page {α κ τ : Type} (urlParse : String → Option URL)
    (callback : κ → α → Bool × κ) (xs : List α) (adapter : SendAsync α τ)
    (ctor : ParsableConstructor) (c0 : κ) (t0 : τ) (fuel : Nat)
    (hcb : ∀ c x, (callback c x).1 = true) :
    ∃ pI, NewPageIterator (some ⟨.holds xs, .isNil⟩) adapter ctor = .ret (some pI, none) ∧
      hasNext pI = false ∧
      (Iterate urlParse callback (fuel + 2) (start pI c0 t0)).1 = .returned none ∧
      (Iterate urlParse callback (fuel + 2) (start pI c0 t0)).2.trace
        = xs.map (fun x => Event.callback x true) ∧
      sentRequests (Iterate urlParse callback (fuel + 2) (start pI c0 t0)).2.trace = [] ∧
      (Iterate urlParse callback (fuel + 2) (start pI c0 t0)).2.transport = t0 := by
  refine ⟨⟨.of (some ⟨none, some xs⟩), adapter, 0, ctor, [], []⟩, ?_, rfl, ?_⟩
  · simp [NewPageIterator, convertToPage, collectLoop_all]
  · by_cases hxs : xs.length ≤ 0
    · have hx : xs = [] := List.length_eq_zero.1 (Nat.le_zero.1 hxs)
      have hE := enumerate_exhausted callback
        (start (⟨.of (some ⟨none, some xs⟩), adapter, 0, ctor, [], []⟩ : PageIterator α τ)
          c0 t0) ⟨none, some xs⟩ xs rfl rfl hxs
      rw [Iterate_enumerate_false urlParse callback (fuel + 1) _ (some ⟨none, some xs⟩) rfl
        (by rw [hE]), hE]
      simp [start, hx, sentRequests]
    · have hpos : 0 < xs.length := by omega
      have henum := enumerate_alwaysTrue callback hcb
        (⟨⟨.of (some ⟨none, some xs⟩), adapter, 0, ctor, [], []⟩, c0, t0, []⟩ : Run α κ τ)
        ⟨none, some xs⟩ xs rfl rfl hpos
      obtain ⟨htrace, _⟩ := enumerate_true_fresh_trace callback adapter ctor [] []
        ⟨none, some xs⟩ xs c0 t0 [] rfl henum
      simp only [start]
      rw [Iterate_last_round urlParse callback adapter ctor [] [] ⟨none, some xs⟩ 0 (fuel + 1)
        c0 t0 [] henum rfl]
      obtain ⟨h1, h2⟩ := Iterate_nilPtr urlParse callback fuel
        (⟨⟨.of none, adapter, 0, ctor, [], []⟩,
          (enumerate callback
            (⟨⟨.of (some ⟨none, some xs⟩), adapter, 0, ctor, [], []⟩, c0, t0, []⟩ :
              Run α κ τ)).2.cbState, t0,
          (enumerate callback
            (⟨⟨.of (some ⟨none, some xs⟩), adapter, 0, ctor, [], []⟩, c0, t0, []⟩ :
              Run α κ τ)).2.trace⟩ : Run α κ τ) rfl
      have h3 := (Iterate_nilPtr urlParse callback (fuel + 1)
        (⟨⟨.of none, adapter, 0, ctor, [], []⟩,
          (enumerate callback
            (⟨⟨.of (some ⟨none, some xs⟩), adapter, 0, ctor, [], []⟩, c0, t0, []⟩ :
              Run α κ τ)).2.cbState, t0,
          (enumerate callback
            (⟨⟨.of (some ⟨none, some xs⟩), adapter, 0, ctor, [], []⟩, c0, t0, []⟩ :
              Run α κ τ)).2.trace⟩ : Run α κ τ) rfl).1
      rw [h2, h3]
      simp only [htrace, List.nil_append, sentRequests_callbacks]
      exact ⟨trivial, trivial, trivial, trivial⟩

/-- C9 at a concrete input: a page with the items 1, 2 and a nil next link. -/
theorem C9_nil_next_link_is_last_page_witness :
    ∃ pI, NewPageIterator (some ⟨.holds [1, 2], .isNil⟩) demoAdapter ⟨0⟩
        = .ret (some pI, none) ∧
      hasNext pI = false ∧
      (Iterate parseAny alwaysTrue 2 (start pI () 0)).1 = .returned none ∧
      (Iterate parseAny alwaysTrue 2 (start pI () 0)).2.trace
        = [Event.callback 1 true, Event.callback 2 true] ∧
      sentRequests (Iterate parseAny alwaysTrue 2 (start pI () 0)).2.trace = [] ∧
      (Iterate parseAny alwaysTrue 2 (start pI () 0)).2.transport = 0 :=
  C9_nil_next_link_is_last_page parseAny alwaysTrue [1, 2] demoAdapter ⟨0⟩ () 0 0
    (fun _ _ => rfl)

/-- C10: empty page with no next link.  The iterator created from a response
whose value sequence is empty and not nil and whose next link is nil exists,
and `Iterate` on it returns nil, for every callback and every transport,
without any callback or transport invocation: the trace stays empty and the
states of the callback and of the transport are unchanged. -/
theorem C10_empty_page_no_link {α κ τ : Type} (urlParse : String → Option URL)
    (callback : κ → α → Bool × κ) (adapter : SendAsync α τ) (ctor : ParsableConstructor)
    (c0 : κ) (t0 : τ) (fuel : Nat) :
    ∃ pI, NewPageIterator (some ⟨.holds [], .isNil⟩ : Response α) adapter ctor
        = .ret (some pI, none) ∧
      (Iterate urlParse callback (fuel + 1) (start pI c0 t0)).1 = .returned none ∧
      (Iterate urlParse callback (fuel + 1) (start pI c0 t0)).2.trace = [] ∧
      (Iterate urlParse callback (fuel + 1) (start pI c0 t0)).2.cbState = c0 ∧
      (Iterate urlParse callback (fuel + 1) (start pI c0 t0)).2.transport = t0 :=
  ⟨⟨.of (some ⟨none, some []⟩), adapter, 0, ctor, [], []⟩, rfl, rfl, rfl, rfl, rfl⟩

/-! ## Frames of `enumerate` and `next` -/

/-- The loop of `enumerate` only appends callback events, and changes no
field of the iterator but `pauseIndex`. -/
theorem enumerateLoop_frame {α κ τ : Type} (callback : κ → α → Bool × κ)
    (xs : List α) (i : Nat) (s : Run α κ τ) :
    (∃ evs, (enumerateLoop callback xs i s).2.trace = s.trace ++ evs ∧
      ∀ e ∈ evs, ∃ x b, e = Event.callback x b) ∧
    (enumerateLoop callback xs i s).2.transport = s.transport ∧
    (enumerateLoop callback xs i s).2.pI.currentPage = s.pI.currentPage ∧
    SameConfig s.pI (enumerateLoop callback xs i s).2.pI := by
  cases h : (enumerateLoop callback xs i s).1 with
  | true =>
    obtain ⟨h1, h2, h3⟩ := enumerateLoop_true callback xs i s h
    refine ⟨⟨_, h3, ?_⟩, h2, by rw [h1], by rw [h1]; exact ⟨rfl, rfl, rfl, rfl⟩⟩
    intro e he
    obtain ⟨x, _, hx⟩ := List.mem_map.1 he
    exact ⟨x, true, hx.symm⟩
  | false =>
    obtain ⟨j, x, _, h1, h2, h3⟩ := enumerateLoop_false callback xs i s h
    refine ⟨⟨_, by rw [h3, List.append_assoc], ?_⟩, h2, by rw [h1],
      by rw [h1]; exact ⟨rfl, rfl, rfl, rfl⟩⟩
    intro e he
    rcases List.mem_append.1 he with he | he
    · obtain ⟨y, _, hy⟩ := List.mem_map.1 he
      exact ⟨y, true, hy.symm⟩
    · exact ⟨x, false, by simpa using he⟩

/-- The method `enumerate` only appends callback events, does not touch the
transport, and changes no field of the iterator but `pauseIndex`. -/
theorem enumerate_frame {α κ τ : Type} (callback : κ → α → Bool × κ) (s : Run α κ τ) :
    (∃ evs, (enumerate callback s).2.trace = s.trace ++ evs ∧
      ∀ e ∈ evs, ∃ x b, e = Event.callback x b) ∧
    (enumerate callback s).2.transport = s.transport ∧
    (enumerate callback s).2.pI.currentPage = s.pI.currentPage ∧
    SameConfig s.pI (enumerate callback s).2.pI := by
  cases hcp : s.pI.currentPage with
  | nil =>
    have hE : enumerate callback s = (false, s) := by simp [enumerate, hcp]
    rw [hE]
    exact ⟨⟨[], by simp⟩, rfl, hcp, rfl, rfl, rfl, rfl⟩
  | of p =>
    cases hv : getValue p with
    | none =>
      have hE : enumerate callback s = (false, s) := by simp [enumerate, hcp, hv]
      rw [hE]
      exact ⟨⟨[], by simp⟩, rfl, hcp, rfl, rfl, rfl, rfl⟩
    | some xs =>
      by_cases hge : s.pI.pauseIndex ≥ xs.length
      · have hE : enumerate callback s = (false, s) := by simp [enumerate, hcp, hv, hge]
        rw [hE]
        exact ⟨⟨[], by simp⟩, rfl, hcp, rfl, rfl, rfl, rfl⟩
      · have hE : enumerate callback s =
            enumerateLoop callback (xs.drop s.pI.pauseIndex) s.pI.pauseIndex s := by
          simp only [enumerate, hcp, hv, hge, if_false]
        rw [hE, ← hcp]
        exact enumerateLoop_frame callback _ _ s

/-- Callback events contain no request. -/
theorem sentRequests_of_callbacks {α : Type} (evs : List (Event α))
    (h : ∀ e ∈ evs, ∃ x b, e = Event.callback x b) : sentRequests evs = [] := by
  induction evs with
  | nil => rfl
  | cons e es ih =>
    obtain ⟨x, b, hx⟩ := h e (List.mem_cons_self _ _)
    subst hx
    simp only [sentRequests]
    exact ih (fun e he => h e (List.mem_cons_of_mem _ he))

/-- The method `next` leaves the callback state, `pauseIndex` and the
configuration of the iterator alone, and when it does not return nil it
leaves the whole iterator alone. -/
theorem next_frame {α κ τ : Type} (urlParse : String → Option URL) (s : Run α κ τ) :
    (next urlParse s).2.cbState = s.cbState ∧
    (next urlParse s).2.pI.pauseIndex = s.pI.pauseIndex ∧
    SameConfig s.pI (next urlParse s).2.pI ∧
    ((next urlParse s).1 ≠ .ret none → (next urlParse s).2.pI = s.pI) := by
  unfold SameConfig
  cases hcp : s.pI.currentPage with
  | nil => simp [next, getNextPage, hcp]
  | of p =>
    cases hl : getNextLink p with
    | none => simp [next, getNextPage, hcp, hl]
    | some link =>
      cases hparse : urlParse link with
      | none => simp [next, getNextPage, hcp, hl, hparse]
      | some u =>
        cases hr : (s.pI.reqAdapter s.transport ⟨.GET, u, s.pI.headers,
            AddRequestOptions [] s.pI.reqOptions⟩
          s.pI.constructorFunc none).1 with
        | error e => simp [next, getNextPage, hcp, hl, hparse, hr]
        | ok res =>
          cases hconv : convertToPage res with
          | panic m => simp [next, getNextPage, hcp, hl, hparse, hr, hconv]
          | ret v =>
            obtain ⟨pg, e⟩ := v
            cases e <;> simp [next, getNextPage, hcp, hl, hparse, hr, hconv]

/-- The events of `next`: nothing, or one request of the required form for
the URL that the next link of the current page parses to. -/
theorem next_events {α κ τ : Type} (urlParse : String → Option URL) (s : Run α κ τ) :
    (next urlParse s).2.trace = s.trace ∨
    ∃ p link u, s.pI.currentPage = .of p ∧ getNextLink p = some link ∧
      urlParse link = some u ∧
      (next urlParse s).2.trace = s.trace ++
        [Event.send ⟨.GET, u, s.pI.headers,
            AddRequestOptions [] s.pI.reqOptions⟩ s.pI.constructorFunc none] := by
  cases hcp : s.pI.currentPage with
  | nil => left; simp [next, getNextPage, hcp]
  | of p =>
    cases hl : getNextLink p with
    | none => left; simp [next, getNextPage, hcp, hl]
    | some link =>
      cases hparse : urlParse link with
      | none => left; simp [next, getNextPage, hcp, hl, hparse]
      | some u =>
        right
        exact ⟨p, link, u, rfl, hl, hparse, next_trace_send urlParse s p link u hcp hl hparse⟩

/-- One round of `Iterate` in which `enumerate` returns true: what happens
next is decided by `next`. -/
theorem Iterate_succ_of_enumerate_true {α κ τ : Type} (urlParse : String → Option URL)
    (callback : κ → α → Bool × κ) (fuel : Nat) (s : Run α κ τ)
    (p : Option (PageResult α)) (hp : s.pI.currentPage = .of p)
    (henum : (enumerate callback s).1 = true) :
    Iterate urlParse callback (fuel + 1) s =
      match next urlParse (enumerate callback s).2 with
      | (.panic msg, s2) => (.panicked msg, s2)
      | (.ret (some err), s2) => (.returned (some err), s2)
      | (.ret none, s2) =>
        Iterate urlParse callback fuel { s2 with pI := { s2.pI with pauseIndex := 0 } } := by
  have hE : enumerate callback s = (true, (enumerate callback s).2) :=
    Prod.ext henum rfl
  rw [Iterate]
  simp only [hp]
  rw [hE]

theorem SameConfig.trans {α τ : Type} {a b c : PageIterator α τ}
    (h1 : SameConfig a b) (h2 : SameConfig b c) : SameConfig a c :=
  ⟨h2.1.trans h1.1, h2.2.1.trans h1.2.1, h2.2.2.1.trans h1.2.2.1,
    h2.2.2.2.trans h1.2.2.2⟩

/-- Every event of a call of `Iterate` that is a transport call has the
required form for the configuration the call started with, and the call
leaves the configuration alone. -/
theorem Iterate_requests {α κ τ : Type} (urlParse : String → Option URL)
    (callback : κ → α → Bool × κ) :
    ∀ (fuel : Nat) (s : Run α κ τ),
      (∃ evs, (Iterate urlParse callback fuel s).2.trace = s.trace ++ evs ∧
        ∀ e ∈ evs, requestOk urlParse s.pI.headers s.pI.reqOptions s.pI.constructorFunc e) ∧
      SameConfig s.pI (Iterate urlParse callback fuel s).2.pI := by
  intro fuel
  induction fuel with
  | zero =>
    intro s
    exact ⟨⟨[], by simp [Iterate]⟩, rfl, rfl, rfl, rfl⟩
  | succ fuel ih =>
    intro s
    cases hcp : s.pI.currentPage with
    | nil =>
      have hI : Iterate urlParse callback (fuel + 1) s = (.returned none, s) := by
        rw [Iterate]; simp only [hcp]
      rw [hI]
      exact ⟨⟨[], by simp⟩, rfl, rfl, rfl, rfl⟩
    | of p =>
      obtain ⟨⟨e1, he1, hcb1⟩, _, _, hcfg1⟩ := enumerate_frame callback s
      have hok1 : ∀ e ∈ e1,
          requestOk urlParse s.pI.headers s.pI.reqOptions s.pI.constructorFunc e := by
        intro e he
        obtain ⟨x, b, hx⟩ := hcb1 e he
        subst hx
        trivial
      cases henum : (enumerate callback s).1 with
      | false =>
        rw [Iterate_enumerate_false urlParse callback fuel s p hcp henum]
        exact ⟨⟨e1, he1, hok1⟩, hcfg1⟩
      | true =>
        rw [Iterate_succ_of_enumerate_true urlParse callback fuel s p hcp henum]
        obtain ⟨_, _, hcfg2, _⟩ := next_frame urlParse (enumerate callback s).2
        have hcfg12 := SameConfig.trans hcfg1 hcfg2
        have hev2 : ∃ e2, (next urlParse (enumerate callback s).2).2.trace =
            s.trace ++ (e1 ++ e2) ∧ ∀ e ∈ e2,
              requestOk urlParse s.pI.headers s.pI.reqOptions s.pI.constructorFunc e := by
          rcases next_events urlParse (enumerate callback s).2 with h | ⟨q, link, u, _, _, hu, h⟩
          · exact ⟨[], by rw [h, he1]; simp, by simp⟩
          · refine ⟨_, by rw [h, he1, List.append_assoc], ?_⟩
            intro e he
            rw [List.mem_singleton] at he
            subst he
            exact ⟨rfl, ⟨link, hu⟩, hcfg1.2.2.1,
              congrArg (AddRequestOptions []) hcfg1.2.2.2, hcfg1.2.1, rfl⟩
        obtain ⟨e2, he2, hok2⟩ := hev2
        have hok12 : ∀ e ∈ e1 ++ e2,
            requestOk urlParse s.pI.headers s.pI.reqOptions s.pI.constructorFunc e := by
          intro e he
          rcases List.mem_append.1 he with h | h
          · exact hok1 e h
          · exact hok2 e h
        cases hN : next urlParse (enumerate callback s).2 with
        | mk o s2 =>
          rw [hN] at he2 hcfg12
          simp only at he2 hcfg12 ⊢
          cases o with
          | panic m => exact ⟨⟨_, he2, hok12⟩, hcfg12⟩
          | ret v =>
            cases v with
            | some err => exact ⟨⟨_, he2, hok12⟩, hcfg12⟩
            | none =>
              simp only
              obtain ⟨⟨e3, he3, hok3⟩, hcfg3⟩ :=
                ih { s2 with pI := { s2.pI with pauseIndex := 0 } }
              have hcfg23 : SameConfig s2.pI
                  ({ s2 with pI := { s2.pI with pauseIndex := 0 } } : Run α κ τ).pI :=
                ⟨rfl, rfl, rfl, rfl⟩
              have hcfgAll := SameConfig.trans (SameConfig.trans hcfg12 hcfg23) hcfg3
              refine ⟨⟨e1 ++ e2 ++ e3, ?_, ?_⟩, hcfgAll⟩
              · rw [he3]; simp only [he2, List.append_assoc]
              · intro e he
                rcases List.mem_append.1 he with h | h
                · exact hok12 e h
                · have := hok3 e h
                  simp only at this
                  rw [hcfg12.2.2.1, hcfg12.2.2.2, hcfg12.2.1] at this
                  exact this

/-- The method `enumerate` keeps the cursor invariant. -/
theorem enumerate_cursorOk {α κ τ : Type} (callback : κ → α → Bool × κ) (s : Run α κ τ)
    (h : cursorOk s.pI) : cursorOk (enumerate callback s).2.pI := by
  cases henum : (enumerate callback s).1 with
  | true =>
    obtain ⟨_, _, _, _, _, hpI, _, _⟩ := enumerate_true callback s henum
    rw [hpI]; exact h
  | false =>
    cases hcp : s.pI.currentPage with
    | nil =>
      have hE : enumerate callback s = (false, s) := by simp [enumerate, hcp]
      rw [hE]; exact h
    | of p =>
      cases hv : getValue p with
      | none =>
        have hE : enumerate callback s = (false, s) := by simp [enumerate, hcp, hv]
        rw [hE]; exact h
      | some xs =>
        by_cases hge : s.pI.pauseIndex ≥ xs.length
        · have hE : enumerate callback s = (false, s) := by simp [enumerate, hcp, hv, hge]
          rw [hE]; exact h
        · have hE : enumerate callback s =
              enumerateLoop callback (xs.drop s.pI.pauseIndex) s.pI.pauseIndex s := by
            simp only [enumerate, hcp, hv, hge, if_false]
          rw [hE] at henum ⊢
          obtain ⟨j, x, hx, h1, _, _⟩ := enumerateLoop_false callback _ _ s henum
          obtain ⟨hj, _⟩ := List.getElem?_eq_some.1 hx
          rw [List.length_drop] at hj
          rw [h1]
          simp only [cursorOk, currentLength, hcp, hv]
          omega

/-- A call of `Iterate` keeps the cursor invariant, however it ends. -/
theorem Iterate_cursorOk {α κ τ : Type} (urlParse : String → Option URL)
    (callback : κ → α → Bool × κ) :
    ∀ (fuel : Nat) (s : Run α κ τ), cursorOk s.pI →
      cursorOk (Iterate urlParse callback fuel s).2.pI := by
  intro fuel
  induction fuel with
  | zero => intro s h; simpa [Iterate] using h
  | succ fuel ih =>
    intro s h
    cases hcp : s.pI.currentPage with
    | nil =>
      have hI : Iterate urlParse callback (fuel + 1) s = (.returned none, s) := by
        rw [Iterate]; simp only [hcp]
      rw [hI]; exact h
    | of p =>
      have h1 := enumerate_cursorOk callback s h
      cases henum : (enumerate callback s).1 with
      | false =>
        rw [Iterate_enumerate_false urlParse callback fuel s p hcp henum]
        exact h1
      | true =>
        rw [Iterate_succ_of_enumerate_true urlParse callback fuel s p hcp henum]
        obtain ⟨_, _, _, hkeep⟩ := next_frame urlParse (enumerate callback s).2
        cases hN : next urlParse (enumerate callback s).2 with
        | mk o s2 =>
          rw [hN] at hkeep
          simp only at hkeep ⊢
          cases o with
          | panic m =>
            rw [hkeep (by simp)]; exact h1
          | ret v =>
            cases v with
            | some err => rw [hkeep (by simp)]; exact h1
            | none =>
              simp only
              apply ih
              simp [cursorOk]

/-- The trace `next` leaves is the trace `getNextPage` leaves. -/
theorem next_trace_eq {α κ τ : Type} (urlParse : String → Option URL) (s : Run α κ τ) :
    (next urlParse s).2.trace = (getNextPage urlParse s).2.trace := by
  unfold next
  cases h : getNextPage urlParse s with
  | mk o s1 =>
    cases o with
    | panic m => rfl
    | ret v =>
      obtain ⟨pg, e⟩ := v
      cases e <;> rfl

/-- What `enumerateLoop` delivers does not depend on the configuration of the
iterator: two states with the same callback state, trace and `pauseIndex`
give the same result, callback state, trace and `pauseIndex`. -/
theorem enumerateLoop_indep {α κ τ : Type} (callback : κ → α → Bool × κ) :
    ∀ (xs : List α) (i : Nat) (s s2 : Run α κ τ),
      s2.cbState = s.cbState → s2.trace = s.trace →
      s2.pI.pauseIndex = s.pI.pauseIndex →
      (enumerateLoop callback xs i s2).1 = (enumerateLoop callback xs i s).1 ∧
      (enumerateLoop callback xs i s2).2.cbState = (enumerateLoop callback xs i s).2.cbState ∧
      (enumerateLoop callback xs i s2).2.trace = (enumerateLoop callback xs i s).2.trace ∧
      (enumerateLoop callback xs i s2).2.pI.pauseIndex =
        (enumerateLoop callback xs i s).2.pI.pauseIndex := by
  intro xs
  induction xs with
  | nil => intro i s s2 h1 h2 h3; exact ⟨rfl, h1, h2, h3⟩
  | cons x rest ih =>
    intro i s s2 h1 h2 h3
    simp only [enumerateLoop, h1, h2]
    cases hr : (callback s.cbState x).1 with
    | false => simp
    | true =>
      simp only [if_true]
      exact ih _ _ _ rfl rfl h3

/-- What `enumerate` delivers depends only on the current page, `pauseIndex`,
the callback state and the trace so far. -/
theorem enumerate_indep {α κ τ : Type} (callback : κ → α → Bool × κ) (s s2 : Run α κ τ)
    (hp : s2.pI.currentPage = s.pI.currentPage)
    (hi : s2.pI.pauseIndex = s.pI.pauseIndex)
    (hc : s2.cbState = s.cbState) (ht : s2.trace = s.trace) :
    (enumerate callback s2).1 = (enumerate callback s).1 ∧
    (enumerate callback s2).2.cbState = (enumerate callback s).2.cbState ∧
    (enumerate callback s2).2.trace = (enumerate callback s).2.trace ∧
    (enumerate callback s2).2.pI.pauseIndex = (enumerate callback s).2.pI.pauseIndex := by
  unfold enumerate
  rw [hp, hi]
  cases s.pI.currentPage with
  | nil => exact ⟨rfl, hc, ht, hi⟩
  | of p =>
    simp only
    cases getValue p with
    | none => exact ⟨rfl, hc, ht, hi⟩
    | some xs =>
      simp only
      by_cases hge : s.pI.pauseIndex ≥ xs.length
      · rw [if_pos hge, if_pos hge]
        exact ⟨rfl, hc, ht, hi⟩
      · rw [if_neg hge, if_neg hge]
        exact enumerateLoop_indep callback _ _ s s2 hc ht hi

/-! ## Claims, continued -/

/-- C11: page conversion preserves content.  For every non-nil response
whose field value holds the sequence `vs` and whose field nextLink holds the
optional link `l`, `convertToPage` succeeds with a page whose `getValue()` is
a sequence `ys` of the same length as `vs` with the same element at every
index, in fact `vs` itself, and whose `getNextLink()` is `l`.  The function
only reads its argument: it is a function of the response alone. -/
theorem C11_convertToPage_preserves_content {α : Type} (vs : List α) (l : Option String) :
    ∃ page ys, convertToPage (some ⟨.holds vs, ptrField l⟩) = .ret (some page, none) ∧
      getValue (some page) = some ys ∧
      ys.length = vs.length ∧
      (∀ i : Nat, ys[i]? = vs[i]?) ∧
      ys = vs ∧
      getNextLink (some page) = l := by
  cases l with
  | none =>
    exact ⟨⟨none, some vs⟩, vs, by simp [convertToPage, ptrField, collectLoop_all], rfl,
      rfl, fun _ => rfl, rfl, rfl⟩
  | some link =>
    exact ⟨⟨some link, some vs⟩, vs, by simp [convertToPage, ptrField, collectLoop_all], rfl,
      rfl, fun _ => rfl, rfl, rfl⟩

/-- A fetch whose response does not convert: `next` returns the error of
`convertToPage` and leaves the iterator alone. -/
theorem next_convertError {α κ τ : Type} (urlParse : String → Option URL) (s : Run α κ τ)
    (p : Option (PageResult α)) (link : String) (u : URL) (res : Response α)
    (pg : Option (PageResult α)) (err : GoError)
    (hp : s.pI.currentPage = .of p) (hl : getNextLink p = some link)
    (hparse : urlParse link = some u)
    (hok : (s.pI.reqAdapter s.transport ⟨.GET, u, s.pI.headers,
        AddRequestOptions [] s.pI.reqOptions⟩
      s.pI.constructorFunc none).1 = .ok res)
    (hconv : convertToPage res = .ret (pg, some err)) :
    next urlParse s =
      (.ret (some err),
        { s with
          transport := (s.pI.reqAdapter s.transport
            ⟨.GET, u, s.pI.headers,
                AddRequestOptions [] s.pI.reqOptions⟩ s.pI.constructorFunc none).2
          trace := s.trace ++
            [Event.send ⟨.GET, u, s.pI.headers,
                AddRequestOptions [] s.pI.reqOptions⟩ s.pI.constructorFunc none] }) := by
  simp [next, getNextPage, hp, hl, hparse, hok, hconv]

/-- Options with pairwise distinct keys are stored as they are, after the
options stored before, when none of those has one of their keys. -/
theorem AddRequestOptions_nodup :
    ∀ (options stored : List RequestOption),
      ((stored ++ options).map (fun o => o.key)).Nodup →
      AddRequestOptions stored options = stored ++ options := by
  intro options
  induction options with
  | nil => intro stored _; simp [AddRequestOptions]
  | cons o os ih =>
    intro stored h
    have hfil : stored.filter (fun x => x.key ≠ o.key) = stored := by
      rw [List.filter_eq_self]
      intro x hx
      simp only [List.map_append, List.map_cons] at h
      have hd := (List.nodup_append.1 h).2.2
      have hne : x.key ≠ o.key := by
        intro heq
        exact hd (List.mem_map_of_mem (fun o => o.key) hx)
          (by rw [heq]; exact List.mem_cons_self _ _)
      simpa using hne
    simp only [AddRequestOptions, hfil]
    rw [ih (stored ++ [o]) (by simpa using h)]
    simp

/-- A fetch whose response makes `convertToPage` panic: `next` panics. -/
theorem next_convertPanic {α κ τ : Type} (urlParse : String → Option URL) (s : Run α κ τ)
    (p : Option (PageResult α)) (link : String) (u : URL) (res : Response α) (m : String)
    (hp : s.pI.currentPage = .of p) (hl : getNextLink p = some link)
    (hparse : urlParse link = some u)
    (hok : (s.pI.reqAdapter s.transport
      ⟨.GET, u, s.pI.headers, AddRequestOptions [] s.pI.reqOptions⟩
      s.pI.constructorFunc none).1 = .ok res)
    (hconv : convertToPage res = .panic m) :
    (next urlParse s).1 = .panic m := by
  simp [next, getNextPage, hp, hl, hparse, hok, hconv]

/-- One round of `Iterate` whose `next` panics: `Iterate` panics. -/
theorem Iterate_next_panic {α κ τ : Type} (urlParse : String → Option URL)
    (callback : κ → α → Bool × κ) (fuel : Nat) (s : Run α κ τ)
    (p : Option (PageResult α)) (m : String)
    (hp : s.pI.currentPage = .of p)
    (henum : (enumerate callback s).1 = true)
    (hnext : (next urlParse (enumerate callback s).2).1 = .panic m) :
    Iterate urlParse callback (fuel + 1) s =
      (.panicked m, (next urlParse (enumerate callback s).2).2) := by
  have hN : next urlParse (enumerate callback s).2 =
      (.panic m, (next urlParse (enumerate callback s).2).2) := Prod.ext hnext rfl
  rw [Iterate_succ_of_enumerate_true urlParse callback fuel s p hp henum, hN]

/-- When `convertToPage` returns no error it returns a page. -/
theorem convertToPage_ok_some {α : Type} (res : Response α) (pg : Option (PageResult α))
    (h : convertToPage res = .ret (pg, none)) : ∃ q, pg = some q := by
  cases res with
  | none => simp [convertToPage] at h
  | some ref =>
    obtain ⟨v, nl⟩ := ref
    cases v with
    | absent => simp [convertToPage] at h
    | isNil => simp [convertToPage] at h
    | holds xs =>
      cases nl with
      | absent => simp [convertToPage] at h
      | isNil =>
        simp only [convertToPage, Go.ret.injEq, Prod.mk.injEq, and_true] at h
        exact ⟨_, h.symm⟩
      | holds l =>
        simp only [convertToPage, Go.ret.injEq, Prod.mk.injEq, and_true] at h
        exact ⟨_, h.symm⟩

/-- The requests of a call, from the events it appends. -/
theorem requestsOf_eq {α κ τ : Type} (urlParse : String → Option URL)
    (callback : κ → α → Bool × κ) (fuel : Nat) (s : Run α κ τ) (evs : List (Event α))
    (h : (Iterate urlParse callback fuel s).2.trace = s.trace ++ evs) :
    requestsOf urlParse callback fuel s = sentRequests evs := by
  unfold requestsOf
  rw [h, List.drop_left]

/-- Every request of a call of `Iterate` is for the next link of the page
that is current when it is sent. -/
theorem Iterate_requestsFollowLinks {α κ τ : Type} (urlParse : String → Option URL)
    (callback : κ → α → Bool × κ) :
    ∀ (fuel : Nat) (s : Run α κ τ), RequestsFollowLinks urlParse callback fuel s := by
  intro fuel
  induction fuel with
  | zero => intro s; trivial
  | succ fuel ih =>
    intro s
    unfold RequestsFollowLinks
    cases hcp : s.pI.currentPage with
    | nil =>
      left
      have hI : Iterate urlParse callback (fuel + 1) s = (.returned none, s) := by
        rw [Iterate]; simp only [hcp]
      rw [requestsOf_eq urlParse callback (fuel + 1) s [] (by rw [hI]; simp)]
      rfl
    | of p0 =>
      obtain ⟨⟨e1, he1, hcb1⟩, htp1, hcp1, hcfg1⟩ := enumerate_frame callback s
      have hs1 := sentRequests_of_callbacks e1 hcb1
      cases henum : (enumerate callback s).1 with
      | false =>
        left
        rw [requestsOf_eq urlParse callback (fuel + 1) s e1
          (by rw [Iterate_enumerate_false urlParse callback fuel s p0 hcp henum]; exact he1)]
        exact hs1
      | true =>
        obtain ⟨_, _, _, _, _, hpI, _, _⟩ := enumerate_true callback s henum
        have hcp1' : (enumerate callback s).2.pI.currentPage = .of p0 := by
          rw [hcp1, hcp]
        cases hl : getNextLink p0 with
        | none =>
          left
          have hnext := next_noLink urlParse (enumerate callback s).2 p0 hcp1' hl
          have hI := Iterate_next_ok urlParse callback fuel s _ p0 hcp henum hnext
          have hnil := (Iterate_nilPtr urlParse callback fuel
            ({ pI := { currentPage := Page.of none,
                       reqAdapter := (enumerate callback s).2.pI.reqAdapter,
                       pauseIndex := 0,
                       constructorFunc := (enumerate callback s).2.pI.constructorFunc,
                       headers := (enumerate callback s).2.pI.headers,
                       reqOptions := (enumerate callback s).2.pI.reqOptions },
               cbState := (enumerate callback s).2.cbState,
               transport := (enumerate callback s).2.transport,
               trace := (enumerate callback s).2.trace } : Run α κ τ) rfl).1
          rw [requestsOf_eq urlParse callback (fuel + 1) s e1 (by rw [hI, hnil]; exact he1)]
          exact hs1
        | some link =>
          cases hparse : urlParse link with
          | none =>
            left
            have hnext := next_badLink urlParse (enumerate callback s).2 p0 link hcp1' hl hparse
            rw [requestsOf_eq urlParse callback (fuel + 1) s e1
              (by rw [Iterate_next_error urlParse callback fuel s _ p0 _ hcp henum hnext]
                  exact he1)]
            exact hs1
          | some u =>
            right
            refine ⟨p0, link, u, rfl, hl, hparse, ?_⟩
            have hsend := next_trace_send urlParse (enumerate callback s).2 p0 link u hcp1' hl
              hparse
            rw [hpI] at hsend
            have hone : ∀ s2 : Run α κ τ,
                s2.trace = (next urlParse (enumerate callback s).2).2.trace →
                (Iterate urlParse callback (fuel + 1) s).2 = s2 →
                requestsOf urlParse callback (fuel + 1) s =
                  [⟨.GET, u, s.pI.headers, AddRequestOptions [] s.pI.reqOptions⟩] := by
              intro s2 h2 hI
              rw [requestsOf_eq urlParse callback (fuel + 1) s
                (e1 ++ [Event.send ⟨.GET, u, s.pI.headers, AddRequestOptions [] s.pI.reqOptions⟩
                  s.pI.constructorFunc none])
                (by rw [hI, h2, hsend, he1, List.append_assoc])]
              rw [sentRequests_append, hs1]
              rfl
            cases hr : (s.pI.reqAdapter s.transport
                ⟨.GET, u, s.pI.headers, AddRequestOptions [] s.pI.reqOptions⟩
                s.pI.constructorFunc none).1 with
            | error e =>
              left
              have hnext := next_sendError urlParse (enumerate callback s).2 p0 link u e hcp1' hl
                hparse (by rw [hpI, htp1]; exact hr)
              have hI := Iterate_next_error urlParse callback fuel s _ p0 _ hcp henum hnext
              exact hone _ (by rw [hnext]) (by rw [hI])
            | ok res =>
              have hr1 : ((enumerate callback s).2.pI.reqAdapter (enumerate callback s).2.transport
                  ⟨.GET, u, (enumerate callback s).2.pI.headers,
                    AddRequestOptions [] (enumerate callback s).2.pI.reqOptions⟩
                  (enumerate callback s).2.pI.constructorFunc none).1 = .ok res := by
                rw [hpI, htp1]; exact hr
              cases hconv : convertToPage res with
              | panic m =>
                left
                have hpanic := next_convertPanic urlParse (enumerate callback s).2 p0 link u res
                  m hcp1' hl hparse hr1 hconv
                have hI := Iterate_next_panic urlParse callback fuel s p0 m hcp henum hpanic
                exact hone _ rfl (by rw [hI])
              | ret v =>
                obtain ⟨pg, e⟩ := v
                cases e with
                | some err =>
                  left
                  have hnext := next_convertError urlParse (enumerate callback s).2 p0 link u res
                    pg err hcp1' hl hparse hr1 hconv
                  have hI := Iterate_next_error urlParse callback fuel s _ p0 _ hcp henum hnext
                  exact hone _ (by rw [hnext]) (by rw [hI])
                | none =>
                  right
                  obtain ⟨q, hq⟩ := convertToPage_ok_some res pg hconv
                  subst hq
                  have hnext := next_sendOk urlParse (enumerate callback s).2 p0 link u res q
                    hcp1' hl hparse hr1 hconv
                  have hI := Iterate_next_ok urlParse callback fuel s _ p0 hcp henum hnext
                  obtain ⟨e3, he3⟩ := Iterate_trace urlParse callback fuel
                    ({ pI := { currentPage := Page.of (some q),
                               reqAdapter := (enumerate callback s).2.pI.reqAdapter,
                               pauseIndex := 0,
                               constructorFunc := (enumerate callback s).2.pI.constructorFunc,
                               headers := (enumerate callback s).2.pI.headers,
                               reqOptions := (enumerate callback s).2.pI.reqOptions },
                       cbState := (enumerate callback s).2.cbState,
                       transport := ((enumerate callback s).2.pI.reqAdapter
                         (enumerate callback s).2.transport
                         ⟨.GET, u, (enumerate callback s).2.pI.headers,
                           AddRequestOptions [] (enumerate callback s).2.pI.reqOptions⟩
                         (enumerate callback s).2.pI.constructorFunc none).2,
                       trace := (enumerate callback s).2.trace ++
                         [Event.send ⟨.GET, u, (enumerate callback s).2.pI.headers,
                           AddRequestOptions [] (enumerate callback s).2.pI.reqOptions⟩
                           (enumerate callback s).2.pI.constructorFunc none] } : Run α κ τ)
                  refine Exists.intro
                    ({ pI := { currentPage := Page.of (some q),
                               reqAdapter := (enumerate callback s).2.pI.reqAdapter,
                               pauseIndex := 0,
                               constructorFunc := (enumerate callback s).2.pI.constructorFunc,
                               headers := (enumerate callback s).2.pI.headers,
                               reqOptions := (enumerate callback s).2.pI.reqOptions },
                       cbState := (enumerate callback s).2.cbState,
                       transport := ((enumerate callback s).2.pI.reqAdapter
                         (enumerate callback s).2.transport
                         ⟨.GET, u, (enumerate callback s).2.pI.headers,
                           AddRequestOptions [] (enumerate callback s).2.pI.reqOptions⟩
                         (enumerate callback s).2.pI.constructorFunc none).2,
                       trace := (enumerate callback s).2.trace ++
                         [Event.send ⟨.GET, u, (enumerate callback s).2.pI.headers,
                           AddRequestOptions [] (enumerate callback s).2.pI.reqOptions⟩
                           (enumerate callback s).2.pI.constructorFunc none] } : Run α κ τ)
                    ⟨res, q, rfl, hconv, rfl, rfl, hcfg1, ?_, ih _⟩
                  rw [requestsOf_eq urlParse callback fuel _ e3 he3]
                  rw [requestsOf_eq urlParse callback (fuel + 1) s
                    (e1 ++ [Event.send ⟨.GET, u, s.pI.headers,
                      AddRequestOptions [] s.pI.reqOptions⟩ s.pI.constructorFunc none] ++ e3)
                    (by rw [hI, he3]; simp only [he1, hpI, List.append_assoc])]
                  rw [sentRequests_append, sentRequests_append, hs1]
                  rfl

/-- What `AddRequestOptions` stores has one option per key, if what was
stored before has. -/
theorem AddRequestOptions_keys_nodup :
    ∀ (options stored : List RequestOption),
      (stored.map (fun o => o.key)).Nodup →
      ((AddRequestOptions stored options).map (fun o => o.key)).Nodup := by
  intro options
  induction options with
  | nil => intro stored h; simpa [AddRequestOptions] using h
  | cons o os ih =>
    intro stored h
    simp only [AddRequestOptions]
    apply ih
    rw [List.map_append, List.nodup_append]
    refine ⟨?_, by simp, ?_⟩
    · exact (h.sublist ((List.filter_sublist stored).map _))
    · intro k hk1 hk2
      simp only [List.map_cons, List.map_nil, List.mem_singleton] at hk2
      obtain ⟨x, hx, hxk⟩ := List.mem_map.1 hk1
      have := (List.mem_filter.1 hx).2
      simp only [ne_eq, decide_not, Bool.not_eq_eq_eq_not, Bool.not_true,
        decide_eq_false_iff_not] at this
      exact this (hxk.trans hk2)

/-- C12, the claim fails for a sequence of options in which a key occurs
twice: after `SetReqOptions` with two options of the key "retry", the request
`Iterate` gives the transport holds one option, the later one, so its
options are not the sequence passed to `SetReqOptions`. -/
theorem C12_same_key_options_are_merged :
    sentRequests (Iterate parseAny alwaysTrue 5
        (start (SetReqOptions twoFirstIterator sameKeyOptions) () 0)).2.trace
      = [⟨.GET, ⟨"page2"⟩, [], [⟨"retry", 2⟩]⟩] ∧
    (⟨.GET, ⟨"page2"⟩, [], [⟨"retry", 2⟩]⟩ : RequestInformation).options
      ≠ sameKeyOptions := by
  refine ⟨rfl, by decide⟩

/-- C12 as amended: request construction.  Every transport call of a call of
`Iterate` is a GET request for a URL that `urlParse` gives for a link, with
the headers the iterator has when `Iterate` is called and, as options, what
`AddRequestOptions` stores of the iterator's options, sent with the
iterator's constructor and no response handler; every request is for the
next link of the page that is current when it is sent
(`RequestsFollowLinks`), as is the request `getNextPage` issues; the headers
and options are those last given to `SetHeaders` and `SetReqOptions`, and
after `NewPageIterator` they are empty and the constructor is the one given
at construction; `AddRequestOptions` stores one option per key, and a
sequence of options with pairwise distinct keys whole. -/
theorem C12_request_construction {α κ τ : Type} (urlParse : String → Option URL)
    (callback : κ → α → Bool × κ) (s : Run α κ τ) (fuel : Nat) :
    (∃ evs, (Iterate urlParse callback fuel s).2.trace = s.trace ++ evs ∧
      ∀ e ∈ evs, requestOk urlParse s.pI.headers s.pI.reqOptions s.pI.constructorFunc e) ∧
    RequestsFollowLinks urlParse callback fuel s ∧
    ((getNextPage urlParse s).2.trace = s.trace ∨
      ∃ p link u, s.pI.currentPage = .of p ∧ getNextLink p = some link ∧
        urlParse link = some u ∧
        (getNextPage urlParse s).2.trace = s.trace ++
          [Event.send ⟨.GET, u, s.pI.headers, AddRequestOptions [] s.pI.reqOptions⟩
            s.pI.constructorFunc none]) ∧
    (∀ (h : List (String × String)) (o : List RequestOption),
      ∃ evs, (Iterate urlParse callback fuel
          { s with pI := SetReqOptions (SetHeaders s.pI h) o }).2.trace = s.trace ++ evs ∧
        ∀ e ∈ evs, requestOk urlParse h o s.pI.constructorFunc e) ∧
    (∀ (h : List (String × String)) (o : List RequestOption),
      ∃ evs, (Iterate urlParse callback fuel
          { s with pI := SetHeaders (SetReqOptions s.pI o) h }).2.trace = s.trace ++ evs ∧
        ∀ e ∈ evs, requestOk urlParse h o s.pI.constructorFunc e) ∧
    (∀ (res : Response α) (adapter : SendAsync α τ) (ctor : ParsableConstructor)
      (pI : PageIterator α τ), NewPageIterator res adapter ctor = .ret (some pI, none) →
        pI.headers = [] ∧ pI.reqOptions = [] ∧ pI.constructorFunc = ctor) ∧
    AddRequestOptions [] [] = [] ∧
    (∀ o : List RequestOption, ((AddRequestOptions [] o).map (fun x => x.key)).Nodup) ∧
    (∀ o : List RequestOption, (o.map (fun x => x.key)).Nodup →
      AddRequestOptions [] o = o) := by
  refine ⟨(Iterate_requests urlParse callback fuel s).1,
    Iterate_requestsFollowLinks urlParse callback fuel s, ?_, ?_, ?_, ?_, rfl, ?_, ?_⟩
  · rw [← next_trace_eq]
    exact next_events urlParse s
  · intro h o
    exact (Iterate_requests urlParse callback fuel
      { s with pI := SetReqOptions (SetHeaders s.pI h) o }).1
  · intro h o
    exact (Iterate_requests urlParse callback fuel
      { s with pI := SetHeaders (SetReqOptions s.pI o) h }).1
  · intro res adapter ctor pI hnew
    obtain ⟨p, _, hpI⟩ := NewPageIterator_ok res adapter ctor pI hnew
    subst hpI
    exact ⟨rfl, rfl, rfl⟩
  · intro o
    exact AddRequestOptions_keys_nodup o [] (by simp)
  · intro o ho
    simpa using AddRequestOptions_nodup o [] (by simpa using ho)

/-- C12 at a concrete input: the request of a traversal of the two example
pages, and two options with different keys. -/
theorem C12_request_construction_witness :
    requestOk parseAny [] [] ⟨0⟩
      (Event.send ⟨.GET, ⟨"page2"⟩, [], []⟩ ⟨0⟩ none : Event Nat) ∧
    AddRequestOptions [] [⟨"retry", 1⟩, ⟨"redirect", 2⟩]
      = [⟨"retry", 1⟩, ⟨"redirect", 2⟩] := by
  obtain ⟨⟨evs, hevs, hall⟩, _, _, _, _, _, _, _, hdistinct⟩ :=
    C12_request_construction parseAny alwaysTrue (start twoFirstIterator () 0) 5
  have ht : (Iterate parseAny alwaysTrue 5 (start twoFirstIterator () 0)).2.trace =
      [.callback 1 true, .callback 2 true, .send ⟨.GET, ⟨"page2"⟩, [], []⟩ ⟨0⟩ none,
        .callback 7 true] := rfl
  rw [ht] at hevs
  have hevs2 : evs = [.callback 1 true, .callback 2 true,
      .send ⟨.GET, ⟨"page2"⟩, [], []⟩ ⟨0⟩ none, .callback 7 true] := by
    simpa [start] using hevs.symm
  subst hevs2
  exact ⟨hall _ (by simp), hdistinct _ (by decide)⟩

/-- C13: setter frame.  `SetHeaders` changes the field headers to its
argument and no other field, `SetReqOptions` changes the field reqOptions to
its argument and no other field; neither takes part in a run (no callback or
transport call), and what `enumerate` then does on the current page, its
result, the callback invocations and the cursor, is what it does without the
setter call. -/
theorem C13_setter_frame {α κ τ : Type} (pI : PageIterator α τ)
    (h : List (String × String)) (o : List RequestOption)
    (callback : κ → α → Bool × κ) (c : κ) (t : τ) (tr : List (Event α)) :
    ((SetHeaders pI h).headers = h ∧
      (SetHeaders pI h).currentPage = pI.currentPage ∧
      (SetHeaders pI h).pauseIndex = pI.pauseIndex ∧
      (SetHeaders pI h).reqAdapter = pI.reqAdapter ∧
      (SetHeaders pI h).constructorFunc = pI.constructorFunc ∧
      (SetHeaders pI h).reqOptions = pI.reqOptions) ∧
    ((SetReqOptions pI o).reqOptions = o ∧
      (SetReqOptions pI o).currentPage = pI.currentPage ∧
      (SetReqOptions pI o).pauseIndex = pI.pauseIndex ∧
      (SetReqOptions pI o).reqAdapter = pI.reqAdapter ∧
      (SetReqOptions pI o).constructorFunc = pI.constructorFunc ∧
      (SetReqOptions pI o).headers = pI.headers) ∧
    ((enumerate callback ⟨SetHeaders pI h, c, t, tr⟩).1 =
        (enumerate callback ⟨pI, c, t, tr⟩).1 ∧
      (enumerate callback ⟨SetHeaders pI h, c, t, tr⟩).2.cbState =
        (enumerate callback ⟨pI, c, t, tr⟩).2.cbState ∧
      (enumerate callback ⟨SetHeaders pI h, c, t, tr⟩).2.trace =
        (enumerate callback ⟨pI, c, t, tr⟩).2.trace ∧
      (enumerate callback ⟨SetHeaders pI h, c, t, tr⟩).2.pI.pauseIndex =
        (enumerate callback ⟨pI, c, t, tr⟩).2.pI.pauseIndex) ∧
    ((enumerate callback ⟨SetReqOptions pI o, c, t, tr⟩).1 =
        (enumerate callback ⟨pI, c, t, tr⟩).1 ∧
      (enumerate callback ⟨SetReqOptions pI o, c, t, tr⟩).2.cbState =
        (enumerate callback ⟨pI, c, t, tr⟩).2.cbState ∧
      (enumerate callback ⟨SetReqOptions pI o, c, t, tr⟩).2.trace =
        (enumerate callback ⟨pI, c, t, tr⟩).2.trace ∧
      (enumerate callback ⟨SetReqOptions pI o, c, t, tr⟩).2.pI.pauseIndex =
        (enumerate callback ⟨pI, c, t, tr⟩).2.pI.pauseIndex) :=
  ⟨⟨rfl, rfl, rfl, rfl, rfl, rfl⟩, ⟨rfl, rfl, rfl, rfl, rfl, rfl⟩,
    enumerate_indep callback ⟨pI, c, t, tr⟩ ⟨SetHeaders pI h, c, t, tr⟩ rfl rfl rfl rfl,
    enumerate_indep callback ⟨pI, c, t, tr⟩ ⟨SetReqOptions pI o, c, t, tr⟩ rfl rfl rfl rfl⟩

/-- C14: cursor invariant.  `0 ≤ pauseIndex ≤ len(currentPage.getValue())`,
with length 0 for a nil page, holds for the iterator `NewPageIterator`
returns, and every operation keeps it: `Iterate` with any callback and any
transport, however the call ends (nil, an error, a pause, a panic of the
conversion, or still running when the fuel is used up), `SetHeaders` and
`SetReqOptions`. -/
theorem C14_cursor_invariant {α κ τ : Type} (urlParse : String → Option URL)
    (callback : κ → α → Bool × κ) (s : Run α κ τ) (fuel : Nat)
    (res : Response α) (adapter : SendAsync α τ) (ctor : ParsableConstructor)
    (h : List (String × String)) (o : List RequestOption) :
    (∀ pI, NewPageIterator res adapter ctor = .ret (some pI, none) → cursorOk pI) ∧
    (cursorOk s.pI → cursorOk (Iterate urlParse callback fuel s).2.pI) ∧
    (cursorOk s.pI → cursorOk (SetHeaders s.pI h)) ∧
    (cursorOk s.pI → cursorOk (SetReqOptions s.pI o)) := by
  refine ⟨?_, Iterate_cursorOk urlParse callback fuel s, fun hs => hs, fun hs => hs⟩
  intro pI hnew
  obtain ⟨p, _, hpI⟩ := NewPageIterator_ok res adapter ctor pI hnew
  subst hpI
  exact ⟨Nat.le_refl 0, Nat.zero_le _⟩

/-- C14 at a concrete input: the iterator of the two example pages after a
call of `Iterate` that paused on the second item. -/
theorem C14_cursor_invariant_witness :
    cursorOk twoFirstIterator ∧
    cursorOk (Iterate parseAny (falseOnCall 2) 5 (start twoFirstIterator 0 0)).2.pI ∧
    (Iterate parseAny (falseOnCall 2) 5 (start twoFirstIterator 0 0)).2.pI.pauseIndex = 2 :=
  have h := C14_cursor_invariant parseAny (falseOnCall 2) (start twoFirstIterator 0 0) 5
    twoFirst demoAdapter ⟨0⟩ [] []
  ⟨h.1 twoFirstIterator rfl, h.2.1 (h.1 twoFirstIterator rfl), rfl⟩

/-- C15, the code at the failing input: the current page has a non-nil item
sequence with zero items, `pauseIndex` is 0 and the page has a next link that
the transport serves.  `enumerate` delivers nothing and returns false, the
value it also returns for a pause (second conjunct group), so `Iterate`
returns nil without a transport call: the next page is not fetched and its
item is not delivered. -/
theorem C15_exhausted_page_is_reported_like_a_pause :
    hasNext emptyFirstIterator = true ∧
    (enumerate alwaysTrue (start emptyFirstIterator () 0)).1 = false ∧
    (enumerate alwaysTrue (start emptyFirstIterator () 0)).2.trace = [] ∧
    (enumerate (falseOnCall 1) (start twoFirstIterator 0 0)).1 = false ∧
    (enumerate (falseOnCall 1) (start twoFirstIterator 0 0)).2.trace
      = [.callback 1 false] ∧
    ∀ fuel : Nat,
      (Iterate parseAny alwaysTrue (fuel + 1) (start emptyFirstIterator () 0)).1
          = .returned none ∧
      sentRequests (Iterate parseAny alwaysTrue (fuel + 1)
          (start emptyFirstIterator () 0)).2.trace = [] ∧
      deliveredItems (Iterate parseAny alwaysTrue (fuel + 1)
          (start emptyFirstIterator () 0)).2.trace = [] ∧
      (Iterate parseAny alwaysTrue (fuel + 1)
          (start emptyFirstIterator () 0)).2.pI.currentPage
          = .of (some ⟨some "page2", some []⟩) := by
  refine ⟨rfl, rfl, rfl, rfl, rfl, fun fuel => ⟨rfl, rfl, rfl, rfl⟩⟩

/-- The method `enumerate` never sets the cursor to 0: it leaves `pauseIndex`
alone or sets it to a positive value. -/
theorem enumerate_cursor {α κ τ : Type} (callback : κ → α → Bool × κ) (s : Run α κ τ) :
    (enumerate callback s).2.pI.pauseIndex = s.pI.pauseIndex ∨
    0 < (enumerate callback s).2.pI.pauseIndex := by
  cases henum : (enumerate callback s).1 with
  | true =>
    obtain ⟨_, _, _, _, _, hpI, _, _⟩ := enumerate_true callback s henum
    left; rw [hpI]
  | false =>
    cases hcp : s.pI.currentPage with
    | nil =>
      have hE : enumerate callback s = (false, s) := by simp [enumerate, hcp]
      left; rw [hE]
    | of p =>
      cases hv : getValue p with
      | none =>
        have hE : enumerate callback s = (false, s) := by simp [enumerate, hcp, hv]
        left; rw [hE]
      | some xs =>
        by_cases hge : s.pI.pauseIndex ≥ xs.length
        · have hE : enumerate callback s = (false, s) := by simp [enumerate, hcp, hv, hge]
          left; rw [hE]
        · have hE : enumerate callback s =
              enumerateLoop callback (xs.drop s.pI.pauseIndex) s.pI.pauseIndex s := by
            simp only [enumerate, hcp, hv, hge, if_false]
          rw [hE] at henum ⊢
          obtain ⟨j, x, _, h1, _, _⟩ := enumerateLoop_false callback _ _ s henum
          right
          rw [h1]
          simp

/-- When `next` returns nil it has stored the page `getNextPage` returned in
`currentPage`. -/
theorem next_replaces {α κ τ : Type} (urlParse : String → Option URL) (s : Run α κ τ)
    (h : (next urlParse s).1 = .ret none) :
    ∃ pg, (getNextPage urlParse s).1 = .ret (pg, none) ∧
      (next urlParse s).2.pI.currentPage = .of pg := by
  unfold next at h ⊢
  cases hg : getNextPage urlParse s with
  | mk o s1 =>
    rw [hg] at h
    cases o with
    | panic m => simp at h
    | ret v =>
      obtain ⟨pg, e⟩ := v
      cases e with
      | some err => simp at h
      | none => exact ⟨pg, rfl, rfl⟩

/-- C16: advance resets the cursor.  For an iterator paused inside its page
(items `xs`, `pauseIndex = i0 < len xs`, with `0 < i0` or not) whose next link is fetched
successfully to a page `q` with no next link, `Iterate` with a callback that
always returns true returns nil, delivers `xs[i0], ..., xs[len - 1]` and then
every item of `q` from index 0 on, with one transport call.  The cursor is
set to 0 with each replacement of `currentPage` and at no other time:
`enumerate` never replaces the page and leaves `pauseIndex` alone or makes it
positive, `next` never changes `pauseIndex` and replaces the page exactly
when it returns nil, and a round of `Iterate` whose `next` returned nil goes
on with `pauseIndex` 0. -/
theorem C16_advance_resets_cursor {α κ τ : Type} (urlParse : String → Option URL)
    (callback : κ → α → Bool × κ) (adapter : SendAsync α τ) (ctor : ParsableConstructor)
    (hdrs : List (String × String)) (opts : List RequestOption) (p q : PageResult α)
    (xs : List α) (i0 fuel : Nat) (c : κ) (t : τ) (tr : List (Event α))
    (hcb : ∀ c x, (callback c x).1 = true)
    (hv : p.value = some xs) (hlt : i0 < xs.length)
    (hchain : Chain urlParse adapter hdrs opts ctor p [q]) :
    (Iterate urlParse callback (fuel + 3)
      ⟨⟨.of (some p), adapter, i0, ctor, hdrs, opts⟩, c, t, tr⟩).1 = .returned none ∧
    (∃ evs,
      (Iterate urlParse callback (fuel + 3)
        ⟨⟨.of (some p), adapter, i0, ctor, hdrs, opts⟩, c, t, tr⟩).2.trace = tr ++ evs ∧
      deliveredItems evs = xs.drop i0 ++ pageItems q ∧
      (sentRequests evs).length = 1) ∧
    (∀ (cb2 : κ → α → Bool × κ) (s : Run α κ τ),
      (enumerate cb2 s).2.pI.currentPage = s.pI.currentPage ∧
      ((enumerate cb2 s).2.pI.pauseIndex = s.pI.pauseIndex ∨
        0 < (enumerate cb2 s).2.pI.pauseIndex)) ∧
    (∀ s : Run α κ τ,
      (next urlParse s).2.pI.pauseIndex = s.pI.pauseIndex ∧
      ((next urlParse s).1 ≠ .ret none → (next urlParse s).2.pI = s.pI) ∧
      ((next urlParse s).1 = .ret none →
        ∃ pg, (getNextPage urlParse s).1 = .ret (pg, none) ∧
          (next urlParse s).2.pI.currentPage = .of pg)) ∧
    (∀ (cb2 : κ → α → Bool × κ) (s s2 : Run α κ τ) (pp : Option (PageResult α)) (n : Nat),
      s.pI.currentPage = .of pp → (enumerate cb2 s).1 = true →
      next urlParse (enumerate cb2 s).2 = (.ret none, s2) →
      Iterate urlParse cb2 (n + 1) s =
        Iterate urlParse cb2 n { s2 with pI := { s2.pI with pauseIndex := 0 } }) := by
  have hpi : pageItems p = xs := by simp [pageItems, hv]
  obtain ⟨hret, evs, hevs, hdel, _, hsent⟩ := Iterate_chain_full urlParse callback hcb adapter
    ctor hdrs opts [q] p i0 (fuel + 3) c t tr ⟨xs, hv⟩ hchain
    ⟨by rw [hpi]; exact hlt, trivial⟩ (by simp)
  refine ⟨hret, ⟨evs, hevs, ?_, by simpa using hsent⟩, ?_, ?_, ?_⟩
  · rw [hdel, hpi]; simp [chainItems]
  · intro cb2 s
    exact ⟨(enumerate_frame cb2 s).2.2.1, enumerate_cursor cb2 s⟩
  · intro s
    obtain ⟨_, h2, _, h4⟩ := next_frame urlParse s
    exact ⟨h2, h4, next_replaces urlParse s⟩
  · intro cb2 s s2 pp n hp henum hnext
    exact Iterate_next_ok urlParse cb2 n s s2 pp hp henum hnext

/-- C16 at a concrete input: an iterator paused at index 1 of the items
1, 2, 3, with a second and last page that holds the item 7. -/
theorem C16_advance_resets_cursor_witness :
    (Iterate parseAny alwaysTrue 3 (start pausedIterator () 0)).1 = .returned none ∧
    deliveredItems (Iterate parseAny alwaysTrue 3 (start pausedIterator () 0)).2.trace
      = [2, 3, 7] :=
  have h := C16_advance_resets_cursor parseAny alwaysTrue demoAdapter ⟨0⟩ [] []
    ⟨some "page2", some [1, 2, 3]⟩ ⟨none, some [7]⟩ [1, 2, 3] 1 0 () 0 []
    (fun _ _ => rfl) rfl (by decide)
    ⟨⟨"page2", ⟨"page2"⟩, oneLast, rfl, rfl, fun _ => rfl, rfl⟩, rfl⟩
  ⟨h.1, rfl⟩

/-- C17: bad fetched page.  When `enumerate` has gone through the current
page without pause, the next link parses and the transport call succeeds with
a response that is nil or whose field value is nil, `Iterate` returns the
error `convertToPage` gives for that response, "response cannot be nil" resp.
"value property missing in response object", and the iterator, in particular
`currentPage` and `pauseIndex`, is what it was before the fetch attempt. -/
theorem C17_bad_fetched_page {α κ τ : Type} (urlParse : String → Option URL)
    (callback : κ → α → Bool × κ) (s : Run α κ τ) (p : PageResult α) (link : String)
    (u : URL) (res : Response α) (fuel : Nat)
    (hpage : s.pI.currentPage = .of (some p))
    (henum : (enumerate callback s).1 = true)
    (hlink : p.nextLink = some link) (hparse : urlParse link = some u)
    (hok : (s.pI.reqAdapter s.transport ⟨.GET, u, s.pI.headers,
        AddRequestOptions [] s.pI.reqOptions⟩
      s.pI.constructorFunc none).1 = .ok res)
    (hbad : res = none ∨ ∃ nl, res = some ⟨.isNil, nl⟩) :
    (∃ pg err, convertToPage res = .ret (pg, some err) ∧
      (Iterate urlParse callback (fuel + 1) s).1 = .returned (some err)) ∧
    (res = none →
      (Iterate urlParse callback (fuel + 1) s).1 = .returned (some "response cannot be nil")) ∧
    ((∃ nl, res = some ⟨.isNil, nl⟩) →
      (Iterate urlParse callback (fuel + 1) s).1
        = .returned (some "value property missing in response object")) ∧
    (Iterate urlParse callback (fuel + 1) s).2.pI = (enumerate callback s).2.pI ∧
    (Iterate urlParse callback (fuel + 1) s).2.pI.currentPage = .of (some p) ∧
    (Iterate urlParse callback (fuel + 1) s).2.pI.pauseIndex = s.pI.pauseIndex := by
  obtain ⟨p', xs, hp', hv, hlt, hpI, htr, htrace⟩ := enumerate_true callback s henum
  have hcp1 : (enumerate callback s).2.pI.currentPage = .of (some p) := by
    rw [hpI, hpage]
  have hok1 : ((enumerate callback s).2.pI.reqAdapter (enumerate callback s).2.transport
      ⟨.GET, u, (enumerate callback s).2.pI.headers,
        AddRequestOptions [] (enumerate callback s).2.pI.reqOptions⟩
      (enumerate callback s).2.pI.constructorFunc none).1 = .ok res := by
    rw [hpI, htr]; exact hok
  have hconv : ∃ err, convertToPage res = .ret (none, some err) ∧
      (res = none → err = "response cannot be nil") ∧
      ((∃ nl, res = some ⟨.isNil, nl⟩) →
        err = "value property missing in response object") := by
    rcases hbad with h | ⟨nl, h⟩
    · subst h
      exact ⟨_, rfl, fun _ => rfl, fun ⟨nl, h⟩ => by cases h⟩
    · subst h
      exact ⟨_, rfl, fun h => (by cases h), fun _ => rfl⟩
  obtain ⟨err, hc, h1, h2⟩ := hconv
  have hnext := next_convertError urlParse (enumerate callback s).2 (some p) link u res
    none err hcp1 (by simpa [getNextLink] using hlink) hparse hok1 hc
  rw [Iterate_next_error urlParse callback fuel s _ (some p) _ hpage henum hnext]
  refine ⟨⟨none, err, hc, rfl⟩, ?_, ?_, rfl, hcp1, by simp [hpI]⟩
  · intro h; rw [h1 h]
  · intro h; rw [h2 h]

/-- C17 at concrete inputs: a transport that answers with a nil response,
and one that answers with a response whose field value is nil. -/
theorem C17_bad_fetched_page_witness :
    (Iterate parseAny alwaysTrue 1 (start twoFirstNilResponse () 0)).1
        = .returned (some "response cannot be nil") ∧
    (Iterate parseAny alwaysTrue 1 (start twoFirstNilValue () 0)).1
        = .returned (some "value property missing in response object") ∧
    (Iterate parseAny alwaysTrue 1 (start twoFirstNilValue () 0)).2.pI.pauseIndex = 0 :=
  have h1 := C17_bad_fetched_page parseAny alwaysTrue (start twoFirstNilResponse () 0)
    ⟨some "page2", some [1, 2]⟩ "page2" ⟨"page2"⟩ none 0 rfl rfl rfl rfl rfl (Or.inl rfl)
  have h2 := C17_bad_fetched_page parseAny alwaysTrue (start twoFirstNilValue () 0)
    ⟨some "page2", some [1, 2]⟩ "page2" ⟨"page2"⟩ (some ⟨.isNil, .isNil⟩) 0 rfl rfl rfl rfl
    rfl (Or.inr ⟨.isNil, rfl⟩)
  ⟨h1.2.1 rfl, h2.2.2.1 ⟨.isNil, rfl⟩, h2.2.2.2.2.2⟩

/-- C18: redelivery on retry.  When a call of `Iterate` has delivered the
items of the current page from `pauseIndex` on, has sent the request for the
next link and `next` has returned an error (the transport failed or the
response did not convert), the call returns that error and `pauseIndex` still
has the value it had when the enumeration started; so a following call with
a callback that always returns true, in any transport state, delivers the
same items of the current page again, from `pauseIndex` to the end, and then
sends the same request again. -/
theorem C18_redelivery_on_retry {α κ τ : Type} (urlParse : String → Option URL)
    (callback : κ → α → Bool × κ) (s : Run α κ τ) (p : PageResult α) (xs : List α)
    (link : String) (u : URL) (err : GoError) (fuel : Nat)
    (hpage : s.pI.currentPage = .of (some p)) (hv : p.value = some xs)
    (henum : (enumerate callback s).1 = true)
    (hlink : p.nextLink = some link) (hparse : urlParse link = some u)
    (hnext : (next urlParse (enumerate callback s).2).1 = .ret (some err)) :
    (Iterate urlParse callback (fuel + 1) s).1 = .returned (some err) ∧
    (Iterate urlParse callback (fuel + 1) s).2.trace =
      s.trace ++ (xs.drop s.pI.pauseIndex).map (fun x => Event.callback x true) ++
        [Event.send ⟨.GET, u, s.pI.headers,
            AddRequestOptions [] s.pI.reqOptions⟩ s.pI.constructorFunc none] ∧
    (Iterate urlParse callback (fuel + 1) s).2.pI.currentPage = .of (some p) ∧
    (Iterate urlParse callback (fuel + 1) s).2.pI.pauseIndex = s.pI.pauseIndex ∧
    s.pI.pauseIndex < xs.length ∧
    ∀ (κ2 : Type) (cb2 : κ2 → α → Bool × κ2) (c2 : κ2) (t2 : τ) (fuel2 : Nat),
      (∀ c x, (cb2 c x).1 = true) →
      ∃ more,
        (Iterate urlParse cb2 (fuel2 + 1)
          (start (Iterate urlParse callback (fuel + 1) s).2.pI c2 t2)).2.trace =
          (xs.drop s.pI.pauseIndex).map (fun x => Event.callback x true) ++
            Event.send ⟨.GET, u, s.pI.headers,
                AddRequestOptions [] s.pI.reqOptions⟩ s.pI.constructorFunc none ::
              more := by
  obtain ⟨p', xs', hp', hv', hlt, hpI, htr, htrace⟩ := enumerate_true callback s henum
  have hpp : p' = p := by
    rw [hpage] at hp'
    injection hp' with h1
    injection h1 with h2
    exact h2.symm
  subst hpp
  have hxs : xs' = xs := by
    rw [hv] at hv'
    injection hv' with h
    exact h.symm
  subst hxs
  have hcp1 : (enumerate callback s).2.pI.currentPage = .of (some p') := by
    rw [hpI, hpage]
  have hl1 : getNextLink (some p') = some link := by simpa [getNextLink] using hlink
  have hN : next urlParse (enumerate callback s).2 =
      (.ret (some err), (next urlParse (enumerate callback s).2).2) := Prod.ext hnext rfl
  have hkeep := (next_frame urlParse (enumerate callback s).2).2.2.2 (by rw [hnext]; simp)
  have hsend := next_trace_send urlParse (enumerate callback s).2 (some p') link u hcp1 hl1
    hparse
  rw [Iterate_next_error urlParse callback fuel s _ (some p') _ hpage henum hN]
  refine ⟨rfl, ?_, ?_, ?_, hlt, ?_⟩
  · simp only
    rw [hsend, htrace, hpI]
  · simp only
    rw [hkeep, hcp1]
  · simp only
    rw [hkeep, hpI]
  · intro κ2 cb2 c2 t2 fuel2 hcb2
    simp only
    rw [hkeep]
    have hs0 : (start (enumerate callback s).2.pI c2 t2 : Run α κ2 τ).pI = s.pI := by
      simp [start, hpI]
    have hcp2 : (start (enumerate callback s).2.pI c2 t2 : Run α κ2 τ).pI.currentPage
        = .of (some p') := by rw [hs0, hpage]
    have hlt2 : (start (enumerate callback s).2.pI c2 t2 : Run α κ2 τ).pI.pauseIndex
        < xs'.length := by rw [hs0]; exact hlt
    have hen2 := enumerate_alwaysTrue cb2 hcb2 _ p' xs' hcp2 hv hlt2
    obtain ⟨p2, xs2, hp2, hv2, _, hpI2, _, htrace2⟩ := enumerate_true cb2 _ hen2
    have hxs2 : xs2 = xs' := by
      rw [hcp2] at hp2
      injection hp2 with h1
      injection h1 with h2
      subst h2
      rw [hv] at hv2
      injection hv2 with h
      exact h.symm
    subst hxs2
    obtain ⟨evs, hevs⟩ := Iterate_trace_after_next urlParse cb2 fuel2 _ (some p') hcp2 hen2
    have hsend2 := next_trace_send urlParse
      (enumerate cb2 (start (enumerate callback s).2.pI c2 t2)).2 (some p') link u
      (by rw [hpI2, hcp2]) hl1 hparse
    rw [hevs, hsend2, htrace2, hpI2, hs0]
    exact ⟨evs, by simp only [start, List.nil_append, List.append_assoc,
      List.singleton_append]⟩

/-- C18 at a concrete input: a page with items 1, 2 and a next link, and a
transport that fails on every request; the retry delivers 1, 2 again. -/
theorem C18_redelivery_on_retry_witness :
    (Iterate parseAny alwaysTrue 1 (start twoFirstFailing () 0)).2.trace =
      [.callback 1 true, .callback 2 true, .send ⟨.GET, ⟨"page2"⟩, [], []⟩ ⟨0⟩ none] ∧
    ∃ more,
      (Iterate parseAny alwaysTrue 1
        (start (Iterate parseAny alwaysTrue 1 (start twoFirstFailing () 0)).2.pI () 7)).2.trace
        = [.callback 1 true, .callback 2 true] ++
            Event.send ⟨.GET, ⟨"page2"⟩, [], []⟩ ⟨0⟩ none :: more :=
  have h := C18_redelivery_on_retry parseAny alwaysTrue (start twoFirstFailing () 0)
    ⟨some "page2", some [1, 2]⟩ [1, 2] "page2" ⟨"page2"⟩ "Fetching next page failed" 0
    rfl rfl rfl rfl rfl rfl
  ⟨h.2.1, h.2.2.2.2.2 Unit alwaysTrue () 7 0 (fun _ _ => rfl)⟩

/-- C19: finished is terminal.  When a call of `Iterate` has enumerated,
without pause, a page that has no next link, it returns nil (with fuel for
two rounds of its loop) and leaves the nil page pointer in `currentPage`;
every later call of `Iterate`, with any callback, callback state, transport
state and trace so far, returns nil and changes nothing: no callback
invocation, no transport call, the same iterator.  As the iterator is the
same afterwards, this holds for all later calls. -/
theorem C19_finished_is_terminal {α κ τ : Type} (urlParse : String → Option URL)
    (callback : κ → α → Bool × κ) (s : Run α κ τ) (p : PageResult α) (fuel : Nat)
    (hpage : s.pI.currentPage = .of (some p))
    (henum : (enumerate callback s).1 = true)
    (hlink : p.nextLink = none) :
    (Iterate urlParse callback (fuel + 2) s).1 = .returned none ∧
    (Iterate urlParse callback (fuel + 2) s).2.pI.currentPage = .of none ∧
    ∀ (κ2 : Type) (cb2 : κ2 → α → Bool × κ2) (c2 : κ2) (t2 : τ) (tr2 : List (Event α))
      (fuel2 : Nat),
      Iterate urlParse cb2 (fuel2 + 1)
          ⟨(Iterate urlParse callback (fuel + 2) s).2.pI, c2, t2, tr2⟩ =
        (.returned none, ⟨(Iterate urlParse callback (fuel + 2) s).2.pI, c2, t2, tr2⟩) := by
  obtain ⟨_, _, _, _, _, hpI, _, _⟩ := enumerate_true callback s henum
  have hnext := next_noLink urlParse (enumerate callback s).2 (some p)
    (by rw [hpI, hpage]) (by simpa [getNextLink] using hlink)
  rw [Iterate_next_ok urlParse callback (fuel + 1) s _ (some p) hpage henum hnext]
  obtain ⟨h1, _⟩ := Iterate_nilPtr urlParse callback (fuel + 1)
    ({ pI := { currentPage := Page.of none,
               reqAdapter := (enumerate callback s).2.pI.reqAdapter,
               pauseIndex := 0,
               constructorFunc := (enumerate callback s).2.pI.constructorFunc,
               headers := (enumerate callback s).2.pI.headers,
               reqOptions := (enumerate callback s).2.pI.reqOptions },
       cbState := (enumerate callback s).2.cbState,
       transport := (enumerate callback s).2.transport,
       trace := (enumerate callback s).2.trace } : Run α κ τ) rfl
  have h2 := (Iterate_nilPtr urlParse callback fuel
    ({ pI := { currentPage := Page.of none,
               reqAdapter := (enumerate callback s).2.pI.reqAdapter,
               pauseIndex := 0,
               constructorFunc := (enumerate callback s).2.pI.constructorFunc,
               headers := (enumerate callback s).2.pI.headers,
               reqOptions := (enumerate callback s).2.pI.reqOptions },
       cbState := (enumerate callback s).2.cbState,
       transport := (enumerate callback s).2.transport,
       trace := (enumerate callback s).2.trace } : Run α κ τ) rfl).2
  refine ⟨h2, by rw [h1], ?_⟩
  intro κ2 cb2 c2 t2 tr2 fuel2
  rw [h1]
  obtain ⟨g1, g2⟩ := Iterate_nilPtr urlParse cb2 (fuel2 + 1)
    (⟨{ currentPage := Page.of none,
        reqAdapter := (enumerate callback s).2.pI.reqAdapter,
        pauseIndex := 0,
        constructorFunc := (enumerate callback s).2.pI.constructorFunc,
        headers := (enumerate callback s).2.pI.headers,
        reqOptions := (enumerate callback s).2.pI.reqOptions }, c2, t2, tr2⟩ : Run α κ2 τ) rfl
  have g3 := (Iterate_nilPtr urlParse cb2 fuel2
    (⟨{ currentPage := Page.of none,
        reqAdapter := (enumerate callback s).2.pI.reqAdapter,
        pauseIndex := 0,
        constructorFunc := (enumerate callback s).2.pI.constructorFunc,
        headers := (enumerate callback s).2.pI.headers,
        reqOptions := (enumerate callback s).2.pI.reqOptions }, c2, t2, tr2⟩ : Run α κ2 τ)
    rfl).2
  exact Prod.ext g3 g1

/-- C19 at a concrete input: the last page with the item 7; the second call
changes nothing. -/
theorem C19_finished_is_terminal_witness :
    (Iterate parseAny alwaysTrue 2 (start oneLastIterator () 0)).1 = .returned none ∧
    (Iterate parseAny (falseOnCall 1) 1
        ⟨(Iterate parseAny alwaysTrue 2 (start oneLastIterator () 0)).2.pI, 0, 5, []⟩).1
      = .returned none ∧
    (Iterate parseAny (falseOnCall 1) 1
        ⟨(Iterate parseAny alwaysTrue 2 (start oneLastIterator () 0)).2.pI, 0, 5, []⟩).2.trace
      = [] :=
  have h := C19_finished_is_terminal parseAny alwaysTrue (start oneLastIterator () 0)
    ⟨none, some [7]⟩ 0 rfl rfl rfl
  ⟨h.1, congrArg Prod.fst (h.2.2 Nat (falseOnCall 1) 0 5 [] 0),
    congrArg (fun r => r.2.trace) (h.2.2 Nat (falseOnCall 1) 0 5 [] 0)⟩

/-- `Iterate` along a chain of pages, with any callback, entered at any
index: with fuel for one round per page and one more, the call returns nil,
the transport is called at most once per page after the first, and
deliveries and fetches come in the order `FetchOrder` describes. -/
theorem Iterate_chain_order {α κ τ : Type} (urlParse : String → Option URL)
    (callback : κ → α → Bool × κ) (adapter : SendAsync α τ) (ctor : ParsableConstructor)
    (hdrs : List (String × String)) (opts : List RequestOption) :
    ∀ (rest : List (PageResult α)) (p : PageResult α) (i0 fuel : Nat) (c : κ) (t : τ)
      (tr : List (Event α)),
      Chain urlParse adapter hdrs opts ctor p rest →
      rest.length + 2 ≤ fuel →
      (Iterate urlParse callback fuel
        ⟨⟨.of (some p), adapter, i0, ctor, hdrs, opts⟩, c, t, tr⟩).1 = .returned none ∧
      ∃ evs,
        (Iterate urlParse callback fuel
          ⟨⟨.of (some p), adapter, i0, ctor, hdrs, opts⟩, c, t, tr⟩).2.trace = tr ++ evs ∧
        (sentRequests evs).length ≤ rest.length ∧
        FetchOrder urlParse hdrs opts ctor i0 p rest evs := by
  intro rest
  induction rest with
  | nil =>
    intro p i0 fuel c t tr hch hfuel
    obtain ⟨f, rfl⟩ : ∃ f, fuel = f + 2 := ⟨fuel - 2, by simp at hfuel; omega⟩
    obtain ⟨⟨e1, he1, hcb1⟩, _, _, _⟩ := enumerate_frame callback
      (⟨⟨.of (some p), adapter, i0, ctor, hdrs, opts⟩, c, t, tr⟩ : Run α κ τ)
    have hs1 := sentRequests_of_callbacks e1 hcb1
    cases henum : (enumerate callback
        (⟨⟨.of (some p), adapter, i0, ctor, hdrs, opts⟩, c, t, tr⟩ : Run α κ τ)).1 with
    | false =>
      rw [Iterate_enumerate_false urlParse callback (f + 1) _ (some p) rfl henum]
      exact ⟨rfl, e1, he1, by rw [hs1]; simp, hs1⟩
    | true =>
      rw [Iterate_last_round urlParse callback adapter ctor hdrs opts p i0 (f + 1) c t tr henum
        (by simpa [Chain] using hch)]
      obtain ⟨_, h2⟩ := Iterate_nilPtr urlParse callback f
        (⟨⟨.of none, adapter, 0, ctor, hdrs, opts⟩,
          (enumerate callback
            (⟨⟨.of (some p), adapter, i0, ctor, hdrs, opts⟩, c, t, tr⟩ : Run α κ τ)).2.cbState,
          t,
          (enumerate callback
            (⟨⟨.of (some p), adapter, i0, ctor, hdrs, opts⟩, c, t, tr⟩ : Run α κ τ)).2.trace⟩ :
          Run α κ τ) rfl
      have h3 := (Iterate_nilPtr urlParse callback (f + 1)
        (⟨⟨.of none, adapter, 0, ctor, hdrs, opts⟩,
          (enumerate callback
            (⟨⟨.of (some p), adapter, i0, ctor, hdrs, opts⟩, c, t, tr⟩ : Run α κ τ)).2.cbState,
          t,
          (enumerate callback
            (⟨⟨.of (some p), adapter, i0, ctor, hdrs, opts⟩, c, t, tr⟩ : Run α κ τ)).2.trace⟩ :
          Run α κ τ) rfl).1
      rw [h2, h3]
      exact ⟨rfl, e1, he1, by rw [hs1]; simp, hs1⟩
  | cons q rest ih =>
    intro p i0 fuel c t tr hch hfuel
    obtain ⟨f, rfl⟩ : ∃ f, fuel = f + 1 := ⟨fuel - 1, by simp at hfuel; omega⟩
    cases henum : (enumerate callback
        (⟨⟨.of (some p), adapter, i0, ctor, hdrs, opts⟩, c, t, tr⟩ : Run α κ τ)).1 with
    | false =>
      obtain ⟨⟨e1, he1, hcb1⟩, _, _, _⟩ := enumerate_frame callback
        (⟨⟨.of (some p), adapter, i0, ctor, hdrs, opts⟩, c, t, tr⟩ : Run α κ τ)
      have hs1 := sentRequests_of_callbacks e1 hcb1
      rw [Iterate_enumerate_false urlParse callback f _ (some p) rfl henum]
      exact ⟨rfl, e1, he1, by rw [hs1]; simp, Or.inl hs1⟩
    | true =>
      obtain ⟨p', xs, hp', hv, _, _, _, _⟩ := enumerate_true callback _ henum
      simp only at hp'
      injection hp' with h1
      injection h1 with h2
      subst h2
      have hpi : pageItems p = xs := by simp [pageItems, hv]
      have htrace := enumerate_true_trace_at callback adapter ctor hdrs opts p xs i0 c t tr
        hv henum
      obtain ⟨⟨link, u, res, hl, hparse, hsend, hconv⟩, hrest⟩ := hch
      rw [Iterate_fetch_round urlParse callback adapter ctor hdrs opts p q i0 f c t tr
        link u res henum hl hparse (hsend t) hconv]
      obtain ⟨hret, evs, hevs, hlen, hord⟩ := ih q 0 f
        (enumerate callback
          (⟨⟨.of (some p), adapter, i0, ctor, hdrs, opts⟩, c, t, tr⟩ : Run α κ τ)).2.cbState
        (adapter t ⟨.GET, u, hdrs, AddRequestOptions [] opts⟩ ctor none).2
        ((enumerate callback
          (⟨⟨.of (some p), adapter, i0, ctor, hdrs, opts⟩, c, t, tr⟩ : Run α κ τ)).2.trace ++
          [Event.send ⟨.GET, u, hdrs, AddRequestOptions [] opts⟩ ctor none])
        hrest (by simp only [List.length_cons] at hfuel; omega)
      refine ⟨hret, (xs.drop i0).map (fun x => Event.callback x true) ++
        Event.send ⟨.GET, u, hdrs, AddRequestOptions [] opts⟩ ctor none :: evs, ?_, ?_, ?_⟩
      · rw [hevs, htrace]; simp only [List.append_assoc, List.singleton_append]
      · rw [sentRequests_append, sentRequests_callbacks]
        simp only [sentRequests, List.nil_append, List.length_cons]
        omega
      · right
        exact ⟨link, u, evs, hl, hparse, by rw [hpi], hord⟩

/-- C20: termination and fetch bound.  For every callback, every start index
and every transport whose chain of next links from the current page is
finite (`n = rest.length + 1` pages, the last without a next link), a call
of `Iterate` with fuel for `n + 1` rounds of its loop returns nil, so it
terminates; it calls the transport at most `n - 1` times; and the request
for the next link of a page comes at most once, and only after every
remaining item of that page has been delivered with the callback returning
true (`FetchOrder`). -/
theorem C20_termination_and_fetch_bound {α κ τ : Type} (urlParse : String → Option URL)
    (callback : κ → α → Bool × κ) (adapter : SendAsync α τ) (ctor : ParsableConstructor)
    (hdrs : List (String × String)) (opts : List RequestOption)
    (p : PageResult α) (rest : List (PageResult α)) (i0 fuel : Nat) (c : κ) (t : τ)
    (tr : List (Event α))
    (hchain : Chain urlParse adapter hdrs opts ctor p rest)
    (hfuel : (p :: rest).length + 1 ≤ fuel) :
    (Iterate urlParse callback fuel
      ⟨⟨.of (some p), adapter, i0, ctor, hdrs, opts⟩, c, t, tr⟩).1 = .returned none ∧
    ∃ evs,
      (Iterate urlParse callback fuel
        ⟨⟨.of (some p), adapter, i0, ctor, hdrs, opts⟩, c, t, tr⟩).2.trace = tr ++ evs ∧
      (sentRequests evs).length ≤ (p :: rest).length - 1 ∧
      FetchOrder urlParse hdrs opts ctor i0 p rest evs := by
  obtain ⟨h1, evs, h2, h3, h4⟩ := Iterate_chain_order urlParse callback adapter ctor hdrs opts
    rest p i0 fuel c t tr hchain (by simpa using hfuel)
  exact ⟨h1, evs, h2, by simpa using h3, h4⟩

/-- C20 at a concrete input: the two example pages and a callback that
returns false on its third call; one transport call for two pages. -/
theorem C20_termination_and_fetch_bound_witness :
    (Iterate parseAny (falseOnCall 3) 3 (start twoFirstIterator 0 0)).1 = .returned none ∧
    sentRequests (Iterate parseAny (falseOnCall 3) 3 (start twoFirstIterator 0 0)).2.trace
      = [⟨.GET, ⟨"page2"⟩, [], []⟩] :=
  have h := C20_termination_and_fetch_bound parseAny (falseOnCall 3) demoAdapter ⟨0⟩ [] []
    ⟨some "page2", some [1, 2]⟩ [⟨none, some [7]⟩] 0 3 0 0 []
    ⟨⟨"page2", ⟨"page2"⟩, oneLast, rfl, rfl, fun _ => rfl, rfl⟩, rfl⟩ (by decide)
  ⟨h.1, rfl⟩

/-! ## Pause exactness and malformed links -/

/-- The answers of the callback in one run of the loop of `enumerate`: all
true when the loop returns true, and true up to one final false when it
returns false. -/
theorem enumerateLoop_results {α κ τ : Type} (callback : κ → α → Bool × κ)
    (xs : List α) (i : Nat) (s : Run α κ τ) :
    ∃ evs n, (enumerateLoop callback xs i s).2.trace = s.trace ++ evs ∧
      sentRequests evs = [] ∧
      (((enumerateLoop callback xs i s).1 = true ∧
          callbackResults evs = List.replicate n true) ∨
        ((enumerateLoop callback xs i s).1 = false ∧
          callbackResults evs = List.replicate n true ++ [false])) := by
  cases h : (enumerateLoop callback xs i s).1 with
  | true =>
    obtain ⟨_, _, h3⟩ := enumerateLoop_true callback xs i s h
    exact ⟨_, xs.length, h3, sentRequests_callbacks _ _,
      Or.inl ⟨rfl, callbackResults_callbacks _ _⟩⟩
  | false =>
    obtain ⟨j, x, _, _, _, h3⟩ := enumerateLoop_false callback xs i s h
    refine ⟨_, (xs.take j).length, by rw [h3, List.append_assoc], ?_, Or.inr ⟨rfl, ?_⟩⟩
    · rw [sentRequests_append, sentRequests_callbacks]; rfl
    · rw [callbackResults_append, callbackResults_callbacks]; rfl

/-- The answers of the callback in one call of `enumerate`: all true when it
returns true; none at all, or true up to one final false, when it returns
false. -/
theorem enumerate_results {α κ τ : Type} (callback : κ → α → Bool × κ) (s : Run α κ τ) :
    ∃ evs n, (enumerate callback s).2.trace = s.trace ++ evs ∧
      sentRequests evs = [] ∧
      (((enumerate callback s).1 = true ∧ callbackResults evs = List.replicate n true) ∨
        ((enumerate callback s).1 = false ∧
          (evs = [] ∨ callbackResults evs = List.replicate n true ++ [false]))) := by
  have hnone : enumerate callback s = (false, s) →
      ∃ evs n, (enumerate callback s).2.trace = s.trace ++ evs ∧
        sentRequests evs = [] ∧
        (((enumerate callback s).1 = true ∧ callbackResults evs = List.replicate n true) ∨
          ((enumerate callback s).1 = false ∧
            (evs = [] ∨ callbackResults evs = List.replicate n true ++ [false]))) := by
    intro hE
    rw [hE]
    exact ⟨[], 0, by simp, rfl, Or.inr ⟨rfl, Or.inl rfl⟩⟩
  cases hcp : s.pI.currentPage with
  | nil => exact hnone (by simp [enumerate, hcp])
  | of p =>
    cases hv : getValue p with
    | none => exact hnone (by simp [enumerate, hcp, hv])
    | some xs =>
      by_cases hge : s.pI.pauseIndex ≥ xs.length
      · exact hnone (by simp [enumerate, hcp, hv, hge])
      · have hE : enumerate callback s =
            enumerateLoop callback (xs.drop s.pI.pauseIndex) s.pI.pauseIndex s := by
          simp only [enumerate, hcp, hv, hge, if_false]
        rw [hE]
        obtain ⟨evs, n, h1, h2, h3⟩ := enumerateLoop_results callback
          (xs.drop s.pI.pauseIndex) s.pI.pauseIndex s
        refine ⟨evs, n, h1, h2, ?_⟩
        rcases h3 with h3 | h3
        · exact Or.inl h3
        · exact Or.inr ⟨h3.1, Or.inr h3.2⟩

/-- A call of `Iterate` stops calling the callback at its first false: the
answers of the callback in a call are all true, or all true but the last. -/
theorem Iterate_results {α κ τ : Type} (urlParse : String → Option URL)
    (callback : κ → α → Bool × κ) :
    ∀ (fuel : Nat) (s : Run α κ τ),
      ∃ evs n, (Iterate urlParse callback fuel s).2.trace = s.trace ++ evs ∧
        (callbackResults evs = List.replicate n true ∨
          callbackResults evs = List.replicate n true ++ [false]) := by
  intro fuel
  induction fuel with
  | zero => intro s; exact ⟨[], 0, by simp [Iterate], Or.inl rfl⟩
  | succ fuel ih =>
    intro s
    cases hcp : s.pI.currentPage with
    | nil =>
      have hI : Iterate urlParse callback (fuel + 1) s = (.returned none, s) := by
        rw [Iterate]; simp only [hcp]
      rw [hI]
      exact ⟨[], 0, by simp, Or.inl rfl⟩
    | of p =>
      obtain ⟨e1, m, he1, _, hres⟩ := enumerate_results callback s
      rcases hres with ⟨henum, hr1⟩ | ⟨henum, hr1⟩
      · rw [Iterate_succ_of_enumerate_true urlParse callback fuel s p hcp henum]
        have he2 : ∃ e2, (next urlParse (enumerate callback s).2).2.trace =
            s.trace ++ (e1 ++ e2) ∧ callbackResults e2 = [] := by
          rcases next_events urlParse (enumerate callback s).2 with h | ⟨_, _, u, _, _, _, h⟩
          · exact ⟨[], by rw [h, he1]; simp, rfl⟩
          · exact ⟨[Event.send ⟨.GET, u, (enumerate callback s).2.pI.headers,
                AddRequestOptions [] (enumerate callback s).2.pI.reqOptions⟩
                (enumerate callback s).2.pI.constructorFunc none],
              by rw [h, he1, List.append_assoc], rfl⟩
        obtain ⟨e2, he2, hr2⟩ := he2
        have hr12 : callbackResults (e1 ++ e2) = List.replicate m true := by
          rw [callbackResults_append, hr1, hr2, List.append_nil]
        cases hN : next urlParse (enumerate callback s).2 with
        | mk o s2 =>
          rw [hN] at he2
          simp only at he2 ⊢
          cases o with
          | panic msg => exact ⟨_, m, he2, Or.inl hr12⟩
          | ret v =>
            cases v with
            | some err => exact ⟨_, m, he2, Or.inl hr12⟩
            | none =>
              simp only
              obtain ⟨e3, n3, he3, hr3⟩ := ih { s2 with pI := { s2.pI with pauseIndex := 0 } }
              refine ⟨e1 ++ e2 ++ e3, m + n3, ?_, ?_⟩
              · rw [he3]; simp only [he2, List.append_assoc]
              · rw [callbackResults_append, hr12, List.replicate_add]
                rcases hr3 with h | h
                · left; rw [h]
                · right; rw [h, List.append_assoc]
      · rw [Iterate_enumerate_false urlParse callback fuel s p hcp henum]
        rcases hr1 with h | h
        · subst h
          exact ⟨[], 0, he1, Or.inl rfl⟩
        · exact ⟨e1, m, he1, Or.inr h⟩

/-- When the answers of a call stop at the first false and their first `k`
are true `k - 1` times and then false, these are all the answers. -/
theorem results_eq_of_take (rs : List Bool) (n k : Nat)
    (h : rs = List.replicate n true ∨ rs = List.replicate n true ++ [false])
    (ht : rs.take k = List.replicate (k - 1) true ++ [false]) :
    rs = List.replicate (k - 1) true ++ [false] := by
  have hmem : false ∈ rs.take k := by rw [ht]; simp
  rcases h with h | h
  · exfalso
    have := List.mem_of_mem_take hmem
    rw [h] at this
    exact absurd (List.eq_of_mem_replicate this) (by decide)
  · by_cases hkn : k ≤ n
    · exfalso
      rw [h, List.take_append_of_le_length (by simpa using hkn)] at hmem
      have := List.mem_of_mem_take hmem
      exact absurd (List.eq_of_mem_replicate this) (by decide)
    · have hlen : rs.length ≤ k := by rw [h]; simp; omega
      rw [List.take_of_length_le hlen] at ht
      exact ht

/-- C2: pause exactness.  On an iterator freshly created from the first page
of a chain of pages with successful fetches, if in a call of `Iterate` the
callback returned true on the first `k - 1` delivered items and false on the
`k`-th (the first `k` answers of the callback in the call are these; nothing
is assumed about what follows them), then the call returned nil, the
callback was invoked exactly `k` times, on the first `k` items of the chain
in chain order, the pausing invocation is the last event of the call (no
callback or transport call after it), `currentPage` is the page `q` of the
chain that holds the `k`-th item and `pauseIndex` is one past the index `i`
of that item in `q`. -/
theorem C2_pause_exactness {α κ τ : Type} (urlParse : String → Option URL)
    (callback : κ → α → Bool × κ) (adapter : SendAsync α τ) (ctor : ParsableConstructor)
    (res : Response α) (pI : PageIterator α τ) (p : PageResult α)
    (rest : List (PageResult α)) (c0 : κ) (t0 : τ) (fuel k : Nat)
    (hnew : NewPageIterator res adapter ctor = .ret (some pI, none))
    (hpage : pI.currentPage = .of (some p))
    (hchain : Chain urlParse adapter [] [] ctor p rest)
    (hk : 1 ≤ k)
    (hcb : (callbackResults (Iterate urlParse callback fuel (start pI c0 t0)).2.trace).take k =
      List.replicate (k - 1) true ++ [false]) :
    (Iterate urlParse callback fuel (start pI c0 t0)).1 = .returned none ∧
    (callbackResults (Iterate urlParse callback fuel (start pI c0 t0)).2.trace).length = k ∧
    (deliveredItems (Iterate urlParse callback fuel (start pI c0 t0)).2.trace).length = k ∧
    deliveredItems (Iterate urlParse callback fuel (start pI c0 t0)).2.trace =
      (chainItems (p :: rest)).take k ∧
    (∃ before x, (Iterate urlParse callback fuel (start pI c0 t0)).2.trace =
      before ++ [Event.callback x false]) ∧
    ∃ pre q post i, p :: rest = pre ++ q :: post ∧
      (Iterate urlParse callback fuel (start pI c0 t0)).2.pI.currentPage = .of (some q) ∧
      (Iterate urlParse callback fuel (start pI c0 t0)).2.pI.pauseIndex = i + 1 ∧
      i < (pageItems q).length ∧
      k = (chainItems pre).length + i + 1 := by
  obtain ⟨p0, hconv, hpI⟩ := NewPageIterator_ok res adapter ctor pI hnew
  subst hpI
  simp only at hpage
  injection hpage with h1
  injection h1 with h2
  subst h2
  obtain ⟨evs, hevs, hall⟩ := Iterate_chain_pause urlParse callback adapter ctor [] []
    rest p0 fuel c0 t0 [] (convertToPage_value res p0 none hconv) hchain
  obtain ⟨evs2, n, hevs2, hstop⟩ := Iterate_results urlParse callback fuel
    (⟨⟨.of (some p0), adapter, 0, ctor, [], []⟩, c0, t0, []⟩ : Run α κ τ)
  simp only [start] at hcb ⊢
  have hsame : evs2 = evs := by
    rw [hevs] at hevs2
    simpa using hevs2.symm
  subst hsame
  rw [hevs, List.nil_append] at hcb ⊢
  have hall2 := results_eq_of_take _ n k hstop hcb
  obtain ⟨h1, h2⟩ := hall k hk hall2
  have hlen : (callbackResults evs2).length = k := by
    rw [hall2]
    simp only [List.length_append, List.length_replicate, List.length_singleton]
    omega
  exact ⟨h1, hlen, by rw [deliveredItems_length, hlen], h2⟩

/-- C2 at a concrete input: two pages with items 1, 2 and 7, and a callback
that returns false on its third call. -/
theorem C2_pause_exactness_witness :
    (Iterate parseAny (falseOnCall 3) 5 (start twoFirstIterator 0 0)).1 = .returned none ∧
    (callbackResults
      (Iterate parseAny (falseOnCall 3) 5 (start twoFirstIterator 0 0)).2.trace).length = 3 ∧
    deliveredItems (Iterate parseAny (falseOnCall 3) 5 (start twoFirstIterator 0 0)).2.trace
      = [1, 2, 7] :=
  have h := C2_pause_exactness parseAny (falseOnCall 3) demoAdapter ⟨0⟩ twoFirst
    twoFirstIterator ⟨some "page2", some [1, 2]⟩ [⟨none, some [7]⟩] 0 0 5 3 rfl rfl
    ⟨⟨"page2", ⟨"page2"⟩, oneLast, rfl, rfl, fun _ => rfl, rfl⟩, rfl⟩ (by decide) (by decide)
  ⟨h.1, h.2.1, h.2.2.2.1⟩

/-- Malformed next link, where `Iterate` reaches the fetch.  When `enumerate`
has gone through the current page without pause (it returned true, which
takes an item at `pauseIndex`) and the page's next-link string fails
URL parsing, `Iterate` returns the error "Parsing nextLink url failed", gives
no request to the transport (the sent requests and the transport state are
those from before the call) and leaves the iterator, in particular
`currentPage` and `pauseIndex`, unchanged. -/
theorem Iterate_malformed_next_link {α κ τ : Type} (urlParse : String → Option URL)
    (callback : κ → α → Bool × κ) (s : Run α κ τ) (p : PageResult α) (link : String)
    (fuel : Nat)
    (hpage : s.pI.currentPage = .of (some p))
    (henum : (enumerate callback s).1 = true)
    (hlink : p.nextLink = some link) (hparse : urlParse link = none) :
    (Iterate urlParse callback (fuel + 1) s).1
        = .returned (some "Parsing nextLink url failed") ∧
    (Iterate urlParse callback (fuel + 1) s).2.pI = s.pI ∧
    (Iterate urlParse callback (fuel + 1) s).2.pI.currentPage = .of (some p) ∧
    (Iterate urlParse callback (fuel + 1) s).2.pI.pauseIndex = s.pI.pauseIndex ∧
    (Iterate urlParse callback (fuel + 1) s).2.transport = s.transport ∧
    sentRequests (Iterate urlParse callback (fuel + 1) s).2.trace = sentRequests s.trace := by
  obtain ⟨p', xs, hp', hv, hlt, hpI, htr, htrace⟩ := enumerate_true callback s henum
  have hnext := next_badLink urlParse (enumerate callback s).2 (some p) link
    (by rw [hpI, hpage]) (by simpa [getNextLink] using hlink) hparse
  rw [Iterate_next_error urlParse callback fuel s _ (some p) _ hpage henum hnext]
  refine ⟨rfl, hpI, by rw [hpI, hpage], by rw [hpI], htr, ?_⟩
  simp only [htrace, sentRequests_append, sentRequests_callbacks, List.append_nil]

/-- The malformed next link at a concrete input: a page with items 1, 2 whose
next link does not parse. -/
theorem Iterate_malformed_next_link_example :
    (Iterate (parseExcept "page2") alwaysTrue 1 (start twoFirstIterator () 0)).1
        = .returned (some "Parsing nextLink url failed") ∧
    sentRequests (Iterate (parseExcept "page2") alwaysTrue 1
      (start twoFirstIterator () 0)).2.trace = [] :=
  have h := Iterate_malformed_next_link (parseExcept "page2") alwaysTrue
    (start twoFirstIterator () 0) ⟨some "page2", some [1, 2]⟩ "page2" 0 rfl rfl rfl rfl
  ⟨h.1, h.2.2.2.2.2⟩

/-- C6, the code at the failing inputs.  The next link "://bad" of the
current page fails URL parsing (`url.Parse` reports a missing protocol
scheme).  On a page with no items, where nothing pauses, `Iterate` returns
nil and not the parse error; so does a call that finds the page of the items
1, 2 left at its end (`pauseIndex` 2) by a pause on its last item.  On the
same page entered at index 0 the parse error is returned: the difference is
the result false of `enumerate` for a page with nothing left. -/
theorem C6_malformed_link_on_exhausted_page_returns_nil :
    parseExcept "://bad" "://bad" = none ∧
    NewPageIterator emptyBadLink demoAdapter ⟨0⟩ = .ret (some emptyBadLinkIterator, none) ∧
    (∀ fuel : Nat,
      (Iterate (parseExcept "://bad") alwaysTrue (fuel + 1)
          (start emptyBadLinkIterator () 0)).1 = .returned none ∧
      (Iterate (parseExcept "://bad") alwaysTrue (fuel + 1)
          (start emptyBadLinkIterator () 0)).2.trace = []) ∧
    (∀ fuel fuel2 : Nat,
      (Iterate (parseExcept "://bad") (falseOnCall 2) (fuel + 1)
          (start twoBadLinkIterator 0 0)).2.pI.pauseIndex = 2 ∧
      (Iterate (parseExcept "://bad") alwaysTrue (fuel2 + 1)
          (start (Iterate (parseExcept "://bad") (falseOnCall 2) (fuel + 1)
            (start twoBadLinkIterator 0 0)).2.pI () 0)).1 = .returned none ∧
      (Iterate (parseExcept "://bad") alwaysTrue (fuel2 + 1)
          (start (Iterate (parseExcept "://bad") (falseOnCall 2) (fuel + 1)
            (start twoBadLinkIterator 0 0)).2.pI () 0)).2.trace = []) ∧
    (∀ fuel : Nat,
      (Iterate (parseExcept "://bad") alwaysTrue (fuel + 1)
          (start twoBadLinkIterator () 0)).1
        = .returned (some "Parsing nextLink url failed")) := by
  refine ⟨rfl, rfl, fun fuel => ⟨rfl, rfl⟩, fun fuel fuel2 => ⟨rfl, rfl, rfl⟩,
    fun fuel => rfl⟩

end Msgraphgocore
